import Mathlib

/-!
# NumSimSolver: the orchestration core

A shallow embedding of `NumSimCore/NumSimFramework.{h,cpp}`, `NumSimCore/NumSimSimulation.h`,
`NumSimCore/NumSimComm.{h,cpp}`, `NumSimCore/NumSimObject.h` and of the tail of
`NumSimSolver/main.cpp`.

* A pointer `NumSimSimulation*` is a value of an arbitrary type `ι`; the object it points to is
  looked up through `Env.sim`, which gives the virtual method table of that object.
* The heap (the internal state of every plugin object and of the MPI runtime) is a value of an
  arbitrary type `σ`; a `void` virtual method is a function `σ → σ`, the `const` query
  `IsFinished` is a function `σ → Bool`.
* Every virtual call and every write to `std::cout` is appended to a call trace.
* `while (true)` is unrolled with fuel; when the fuel runs out the state reached is kept
  (`Outcome.running`), so that statements about executions that never return can be made.
-/

namespace NumSimSolver

/-! ## Data model -/

/-- Values of `boost::json`. -/
inductive JsonValue where
  | null
  | bool (b : Bool)
  | number (n : Int)
  | string (s : String)
  | array (items : List JsonValue)
  | object (members : List (String × JsonValue))

/-- The type `boost::json::object`: a list of key/value members. -/
abbrev JsonObject := List (String × JsonValue)

/-- One observable action of the framework: a virtual call on the communicator or on a
simulation object, or a write to `std::cout`. -/
inductive Call (ι : Type) where
  | Cout (text : String)
  | CommPrintInfo
  | CommFinalize
  | PrintInfo (sim : ι)
  | ReadMesh (sim : ι)
  | InitFields (sim : ι) (flag : Int)
  | InitBoundaries (sim : ι) (flag : Int)
  | InitFromRestart (sim : ι)
  | Solve (sim : ι)
  | Post (sim : ι)
  | Finalize (sim : ι)
  | IsFinished (sim : ι)
  deriving DecidableEq, Repr

/-- The virtual methods of `class NumSimSimulation` (NumSimSimulation.h, lines 13-22). The field
defaults are the bodies of the base class: every `void` method is `{}` and `IsFinished` is
`return true`. -/
structure NumSimSimulation (σ : Type) where
  PrintInfo : σ → σ := id
  ReadMesh : σ → σ := id
  InitFields : Int → σ → σ := fun _ => id
  InitBoundaries : Int → σ → σ := fun _ => id
  InitFromRestart : σ → σ := id
  Solve : σ → σ := id
  Post : σ → σ := id
  Finalize : σ → σ := id
  IsFinished : σ → Bool := fun _ => true

/-- The data members of `class NumSimComm` (NumSimComm.h, lines 30-31) with their default member
initialisers. -/
structure NumSimComm where
  myRank_ : Int := 0
  numProcs_ : Int := 1
  deriving DecidableEq, Repr

/-- The data members of `class NumSimFramework` (NumSimFramework.h, lines 16-17): `comm_` is a
pointer that starts as `nullptr` (`none`), `simulations_` a vector of pointers that starts
empty. -/
structure NumSimFramework (ι : Type) where
  comm_ : Option NumSimComm := none
  simulations_ : List ι := []

/-- What the orchestration code does not define itself: the object behind each simulation
pointer (dynamic dispatch) and the effect of `MPI_Finalize` on the heap. -/
structure Env (ι σ : Type) where
  sim : ι → NumSimSimulation σ
  MPI_Finalize : σ → σ

/-- The state a framework method runs in: the framework object `*this`, the heap, and the trace
of the calls made so far. -/
structure Machine (ι σ : Type) where
  self : NumSimFramework ι
  world : σ
  trace : List (Call ι)

/-- Result of running code that contains `while (true)` with a bound on the number of passes. -/
inductive Outcome (α : Type) where
  | returned (m : α)
  | running (m : α)

/-- The state carried by an outcome. -/
def Outcome.machine {α : Type} : Outcome α → α
  | .returned m => m
  | .running m => m

variable {ι σ : Type}

/-! ## Operations -/

/-- One call: the action is recorded and the callee transforms the heap. -/
def invoke (c : Call ι) (f : σ → σ) (m : Machine ι σ) : Machine ι σ :=
  { m with world := f m.world, trace := m.trace ++ [c] }

/-- The range-based loop `for (auto simulation : this->simulations_) body`. -/
def forEach (sims : List ι) (body : ι → Machine ι σ → Machine ι σ) (m : Machine ι σ) :
    Machine ι σ :=
  sims.foldl (fun acc sim => body sim acc) m

/-- The counting loop `for (int flag = 0; flag < 2; ++flag) body`. -/
def forFlag (body : Int → Machine ι σ → Machine ι σ) (m : Machine ι σ) : Machine ι σ :=
  (List.range 2).foldl (fun acc flag => body (flag : Int) acc) m

/-- `NumSimComm::PrintInfo` (NumSimComm.h, line 15): an empty body. -/
def NumSimComm.PrintInfo (m : Machine ι σ) : Machine ι σ :=
  invoke .CommPrintInfo id m

/-- `NumSimComm::Finalize` (NumSimComm.cpp, lines 23-26): calls `MPI_Finalize`. -/
def NumSimComm.Finalize (env : Env ι σ) (m : Machine ι σ) : Machine ι σ :=
  invoke .CommFinalize env.MPI_Finalize m

/-- `NumSimFramework::NumSimFramework` followed by nothing else: the state right after
`NumSimFramework::Create()`. -/
def NumSimFramework.Create (w : σ) : Machine ι σ :=
  { self := {}, world := w, trace := [] }

/-- `NumSimFramework::Initialize` (NumSimFramework.cpp, lines 29-32): the body is empty. -/
def NumSimFramework.Initialize (_numSimSolverJson : JsonObject) (m : Machine ι σ) :
    Machine ι σ :=
  m

/-- `NumSimFramework::PrintInfo` (NumSimFramework.cpp, lines 34-47). -/
def NumSimFramework.PrintInfo (env : Env ι σ) (m : Machine ι σ) : Machine ι σ :=
  let m := invoke (.Cout "NumSimSolver Information:") id m
  let m := match m.self.comm_ with
    | some _ => NumSimComm.PrintInfo m
    | none => m
  forEach m.self.simulations_
    (fun simulation => invoke (.PrintInfo simulation) (env.sim simulation).PrintInfo) m

/-- The five loops before `while (true)` in `NumSimFramework::Run`
(NumSimFramework.cpp, lines 51-80). -/
def Run.setup (env : Env ι σ) (m : Machine ι σ) : Machine ι σ :=
  let m := forEach m.self.simulations_
    (fun simulation => invoke (.ReadMesh simulation) (env.sim simulation).ReadMesh) m
  let m := forFlag (fun flag m => forEach m.self.simulations_
    (fun simulation =>
      invoke (.InitFields simulation flag) ((env.sim simulation).InitFields flag)) m) m
  let m := forFlag (fun flag m => forEach m.self.simulations_
    (fun simulation =>
      invoke (.InitBoundaries simulation flag) ((env.sim simulation).InitBoundaries flag)) m) m
  let m := forEach m.self.simulations_
    (fun simulation =>
      invoke (.InitFromRestart simulation) (env.sim simulation).InitFromRestart) m
  forEach m.self.simulations_
    (fun simulation => invoke (.Post simulation) (env.sim simulation).Post) m

/-- The body of the range-based loop inside `while (true)` (NumSimFramework.cpp, lines 88-93),
acting on the local `allFinished` and on the machine. -/
def Run.visit (env : Env ι σ) (acc : Bool × Machine ι σ) (simulation : ι) :
    Bool × Machine ι σ :=
  let finished := (env.sim simulation).IsFinished acc.2.world
  let m := invoke (.IsFinished simulation) id acc.2
  if !finished then
    (false,
      invoke (.Post simulation) (env.sim simulation).Post
        (invoke (.Solve simulation) (env.sim simulation).Solve m))
  else
    (acc.1, m)

/-- One pass of the solve loop (NumSimFramework.cpp, lines 84-94): `allFinished` starts as
`true` and every instance is visited; the result is the value of `allFinished` after the pass
and the machine reached. -/
def Run.solvePass (env : Env ι σ) (m : Machine ι σ) : Bool × Machine ι σ :=
  m.self.simulations_.foldl (Run.visit env) (true, m)

/-- The loop `while (true)` (NumSimFramework.cpp, lines 82-100) allowed at most `fuel` passes:
`returned` when `break` was taken, `running` when the loop is still going after `fuel`
passes. -/
def Run.solveLoop (env : Env ι σ) : Nat → Machine ι σ → Outcome (Machine ι σ)
  | 0, m => .running m
  | fuel + 1, m =>
    let r := Run.solvePass env m
    if r.1 then .returned r.2 else Run.solveLoop env fuel r.2

/-- The last loop of `NumSimFramework::Run` (NumSimFramework.cpp, lines 102-105). -/
def Run.finalPost (env : Env ι σ) (m : Machine ι σ) : Machine ι σ :=
  forEach m.self.simulations_
    (fun simulation => invoke (.Post simulation) (env.sim simulation).Post) m

/-- `NumSimFramework::Run` (NumSimFramework.cpp, lines 49-106), the solve loop being allowed at
most `fuel` passes. -/
def NumSimFramework.Run (env : Env ι σ) (fuel : Nat) (m : Machine ι σ) :
    Outcome (Machine ι σ) :=
  match Run.solveLoop env fuel (Run.setup env m) with
  | .returned m => .returned (Run.finalPost env m)
  | .running m => .running m

/-- `NumSimFramework::Finalize` (NumSimFramework.cpp, lines 108-119). -/
def NumSimFramework.Finalize (env : Env ι σ) (m : Machine ι σ) : Machine ι σ :=
  let m := forEach m.self.simulations_
    (fun simulation => invoke (.Finalize simulation) (env.sim simulation).Finalize) m
  match m.self.comm_ with
  | some _ => NumSimComm.Finalize env m
  | none => m

/-! ## Classification of calls -/

/-- The call is an `InitFields`. -/
def Call.isInitFields : Call ι → Bool
  | .InitFields _ _ => true
  | _ => false

/-- The call is an `InitBoundaries`. -/
def Call.isInitBoundaries : Call ι → Bool
  | .InitBoundaries _ _ => true
  | _ => false

/-- The call is a `ReadMesh`. -/
def Call.isReadMesh : Call ι → Bool
  | .ReadMesh _ => true
  | _ => false

/-- The call is an `InitFromRestart`. -/
def Call.isInitFromRestart : Call ι → Bool
  | .InitFromRestart _ => true
  | _ => false

/-- The call is a `Post`. -/
def Call.isPost : Call ι → Bool
  | .Post _ => true
  | _ => false

/-- The call is a `Finalize` on a simulation object. -/
def Call.isFinalize : Call ι → Bool
  | .Finalize _ => true
  | _ => false

/-- The call is a `Solve`. -/
def Call.isSolve : Call ι → Bool
  | .Solve _ => true
  | _ => false

/-- The calls the solve loop can make: `IsFinished`, `Solve`, `Post`. -/
def Call.isLoopCall : Call ι → Bool
  | .IsFinished _ => true
  | .Solve _ => true
  | .Post _ => true
  | _ => false

/-- The lifecycle operations of a simulation object: everything but its `PrintInfo`. -/
def Call.isLifecycle : Call ι → Bool
  | .ReadMesh _ => true
  | .InitFields _ _ => true
  | .InitBoundaries _ _ => true
  | .InitFromRestart _ => true
  | .Solve _ => true
  | .Post _ => true
  | .Finalize _ => true
  | .IsFinished _ => true
  | _ => false

/-! ## The call sequences the phases are expected to produce -/

/-- Both passes of `InitFields`: pass 0 on every instance, then pass 1 on every instance. -/
def initFieldsCalls (sims : List ι) : List (Call ι) :=
  sims.map (fun a => Call.InitFields a 0) ++ sims.map (fun a => Call.InitFields a 1)

/-- Both passes of `InitBoundaries`: pass 0 on every instance, then pass 1 on every instance. -/
def initBoundariesCalls (sims : List ι) : List (Call ι) :=
  sims.map (fun a => Call.InitBoundaries a 0) ++ sims.map (fun a => Call.InitBoundaries a 1)

/-- The setup phases in order: `ReadMesh`, `InitFields`, `InitBoundaries`, `InitFromRestart`,
initial `Post`, each one over the whole collection. -/
def setupCalls (sims : List ι) : List (Call ι) :=
  sims.map Call.ReadMesh ++ initFieldsCalls sims ++ initBoundariesCalls sims ++
    sims.map Call.InitFromRestart ++ sims.map Call.Post

/-- The calls of one pass of the solve loop as the specification words them: for each instance in
turn, the finished query, then `Solve` immediately followed by `Post` when the query returned
false and nothing when it returned true. -/
def passCalls (env : Env ι σ) : List ι → σ → List (Call ι)
  | [], _ => []
  | a :: rest, w =>
    if (env.sim a).IsFinished w then
      Call.IsFinished a :: passCalls env rest w
    else
      Call.IsFinished a :: Call.Solve a :: Call.Post a ::
        passCalls env rest ((env.sim a).Post ((env.sim a).Solve w))

/-- The heap after one pass of the solve loop. -/
def passWorld (env : Env ι σ) : List ι → σ → σ
  | [], w => w
  | a :: rest, w =>
    if (env.sim a).IsFinished w then passWorld env rest w
    else passWorld env rest ((env.sim a).Post ((env.sim a).Solve w))

/-- Whether every finished query of one pass returns true. -/
def passAllFinished (env : Env ι σ) : List ι → σ → Bool
  | [], _ => true
  | a :: rest, w =>
    if (env.sim a).IsFinished w then passAllFinished env rest w
    else false

/-- The calls made on the Process Group: the call `c` when `comm_` is set, none when it is
`nullptr`. -/
def commCalls (c : Call ι) (fw : NumSimFramework ι) : List (Call ι) :=
  match fw.comm_ with
  | some _ => [c]
  | none => []

/-- In the trace `t` every `Solve` on an instance is immediately followed by a `Post` on the same
instance. -/
def SolveThenPost (t : List (Call ι)) : Prop :=
  ∀ (pre : List (Call ι)) (a : ι) (post : List (Call ι)),
    t = pre ++ Call.Solve a :: post → ∃ rest, post = Call.Post a :: rest

/-- The loop has taken its `break`. -/
def Outcome.isReturned {α : Type} : Outcome α → Bool
  | .returned _ => true
  | .running _ => false

/-! ## Scripted finished predicates -/

/-- The finished predicates of the instances in `sims` are scripted by `remaining`, the number of
`Solve` calls an instance still needs: an instance reports finished exactly when it needs none,
a `Solve` on an instance lowers its own number by one (and, at zero, leaves it at zero), and
neither a `Solve` on another instance nor a `Post` changes it. -/
structure Scripted (env : Env ι σ) (sims : List ι) (remaining : ι → σ → Nat) : Prop where
  finished : ∀ a ∈ sims, ∀ w, (env.sim a).IsFinished w = true ↔ remaining a w = 0
  solve_self : ∀ a ∈ sims, ∀ w, remaining a ((env.sim a).Solve w) = remaining a w - 1
  solve_other : ∀ a ∈ sims, ∀ b ∈ sims, b ≠ a → ∀ w,
    remaining b ((env.sim a).Solve w) = remaining b w
  post : ∀ a ∈ sims, ∀ b ∈ sims, ∀ w, remaining b ((env.sim a).Post w) = remaining b w

/-- The least `K` such that every instance of the collection is finished after at most `K`
`Solve` calls, `need a` being the number instance `a` needs. -/
def solveBound (need : ι → Nat) : List ι → Nat
  | [] => 0
  | a :: rest => max (need a) (solveBound need rest)

/-- The calls of pass number `p` (counted from 0) of a scripted run: an instance that needs at
most `p` solves is only queried, every other instance is queried, solved and posted. -/
def scriptedPass (need : ι → Nat) (p : Nat) : List ι → List (Call ι)
  | [] => []
  | a :: rest =>
    if need a ≤ p then Call.IsFinished a :: scriptedPass need p rest
    else Call.IsFinished a :: Call.Solve a :: Call.Post a :: scriptedPass need p rest

/-- The calls of the `n` consecutive passes numbered `p`, `p + 1`, ... of a scripted run. -/
def scriptedLoop (need : ι → Nat) (sims : List ι) : Nat → Nat → List (Call ι)
  | _, 0 => []
  | p, n + 1 => scriptedPass need p sims ++ scriptedLoop need sims (p + 1) n

/-! ## Calls that may fail

The same code when a virtual call on a simulation object may signal failure. The methods are
`void`, so the only way to signal failure is to throw; neither `NumSimFramework::Run` nor
`NumSimFramework::Finalize` nor `main` has a handler around these calls. A method that throws
`e` yields `.error e`; each trace entry records the call and the exception it threw, if any. -/

namespace Throwing

/-- The lifecycle methods of a simulation object (NumSimSimulation.h, lines 15-22), each of which
may throw. -/
structure Simulation (σ ε : Type) where
  ReadMesh : σ → Except ε σ
  InitFields : Int → σ → Except ε σ
  InitBoundaries : Int → σ → Except ε σ
  InitFromRestart : σ → Except ε σ
  Solve : σ → Except ε σ
  Post : σ → Except ε σ
  Finalize : σ → Except ε σ
  IsFinished : σ → Except ε Bool

/-- The objects behind the simulation pointers, and `MPI_Finalize`. -/
structure Env (ι σ ε : Type) where
  sim : ι → Simulation σ ε
  MPI_Finalize : σ → σ

/-- The framework object, the heap, and the trace of the calls made so far, each with the
exception it threw (`none` when it returned). -/
structure Machine (ι σ ε : Type) where
  self : NumSimFramework ι
  world : σ
  trace : List (Call ι × Option ε)

/-- Result of a piece of code: it returned a value, or an exception is propagating out of it, or
it is still inside `while (true)` after the allowed number of passes. -/
inductive Outcome (ι σ ε : Type) (α : Type) where
  | returned (a : α)
  | thrown (e : ε) (m : Machine ι σ ε)
  | running (m : Machine ι σ ε)

variable {ε α β : Type}

/-- Sequencing of two statements: the second runs only when the first returned; an exception
propagates and skips it. -/
def Outcome.bind (r : Outcome ι σ ε α) (k : α → Outcome ι σ ε β) : Outcome ι σ ε β :=
  match r with
  | .returned a => k a
  | .thrown e m => .thrown e m
  | .running m => .running m

/-- The trace at the point where the code returned, threw or stopped. -/
def Outcome.trace : Outcome ι σ ε (Machine ι σ ε) → List (Call ι × Option ε)
  | .returned m => m.trace
  | .thrown _ m => m.trace
  | .running m => m.trace

/-- An exception is propagating. -/
def Outcome.isThrown : Outcome ι σ ε α → Bool
  | .thrown _ _ => true
  | _ => false

/-- One call that may throw. -/
def invoke (c : Call ι) (f : σ → Except ε σ) (m : Machine ι σ ε) :
    Outcome ι σ ε (Machine ι σ ε) :=
  match f m.world with
  | .ok w => .returned { m with world := w, trace := m.trace ++ [(c, none)] }
  | .error e => .thrown e { m with trace := m.trace ++ [(c, some e)] }

/-- The range-based loop `for (auto simulation : this->simulations_) body`. -/
def forEach (sims : List ι) (body : ι → Machine ι σ ε → Outcome ι σ ε (Machine ι σ ε))
    (m : Machine ι σ ε) : Outcome ι σ ε (Machine ι σ ε) :=
  sims.foldl (fun acc sim => acc.bind (body sim)) (.returned m)

/-- The counting loop `for (int flag = 0; flag < 2; ++flag) body`. -/
def forFlag (body : Int → Machine ι σ ε → Outcome ι σ ε (Machine ι σ ε))
    (m : Machine ι σ ε) : Outcome ι σ ε (Machine ι σ ε) :=
  (List.range 2).foldl (fun acc flag => acc.bind (body (flag : Int))) (.returned m)

/-- The five loops before `while (true)` (NumSimFramework.cpp, lines 51-80). -/
def Run.setup (env : Env ι σ ε) (m : Machine ι σ ε) : Outcome ι σ ε (Machine ι σ ε) :=
  (forEach m.self.simulations_
    (fun simulation => invoke (.ReadMesh simulation) (env.sim simulation).ReadMesh) m).bind
  fun m => (forFlag (fun flag m => forEach m.self.simulations_
    (fun simulation =>
      invoke (.InitFields simulation flag) ((env.sim simulation).InitFields flag)) m) m).bind
  fun m => (forFlag (fun flag m => forEach m.self.simulations_
    (fun simulation =>
      invoke (.InitBoundaries simulation flag)
        ((env.sim simulation).InitBoundaries flag)) m) m).bind
  fun m => (forEach m.self.simulations_
    (fun simulation =>
      invoke (.InitFromRestart simulation) (env.sim simulation).InitFromRestart) m).bind
  fun m => forEach m.self.simulations_
    (fun simulation => invoke (.Post simulation) (env.sim simulation).Post) m

/-- The body of the range-based loop inside `while (true)` (NumSimFramework.cpp,
lines 88-93). -/
def Run.visit (env : Env ι σ ε) (acc : Bool × Machine ι σ ε) (simulation : ι) :
    Outcome ι σ ε (Bool × Machine ι σ ε) :=
  match (env.sim simulation).IsFinished acc.2.world with
  | .error e =>
    .thrown e { acc.2 with trace := acc.2.trace ++ [(.IsFinished simulation, some e)] }
  | .ok finished =>
    if !finished then
      (invoke (.Solve simulation) (env.sim simulation).Solve
        { acc.2 with trace := acc.2.trace ++ [(.IsFinished simulation, none)] }).bind
      fun m => (invoke (.Post simulation) (env.sim simulation).Post m).bind
      fun m => .returned (false, m)
    else
      .returned (acc.1, { acc.2 with trace := acc.2.trace ++ [(.IsFinished simulation, none)] })

/-- One pass of the solve loop (NumSimFramework.cpp, lines 84-94). -/
def Run.solvePass (env : Env ι σ ε) (m : Machine ι σ ε) :
    Outcome ι σ ε (Bool × Machine ι σ ε) :=
  m.self.simulations_.foldl (fun acc simulation => acc.bind (fun a => Run.visit env a simulation))
    (.returned (true, m))

/-- The loop `while (true)` (NumSimFramework.cpp, lines 82-100) allowed at most `fuel`
passes. -/
def Run.solveLoop (env : Env ι σ ε) : Nat → Machine ι σ ε → Outcome ι σ ε (Machine ι σ ε)
  | 0, m => .running m
  | fuel + 1, m =>
    (Run.solvePass env m).bind
      fun r => if r.1 then .returned r.2 else Run.solveLoop env fuel r.2

/-- `NumSimFramework::Run` (NumSimFramework.cpp, lines 49-106). -/
def Run (env : Env ι σ ε) (fuel : Nat) (m : Machine ι σ ε) : Outcome ι σ ε (Machine ι σ ε) :=
  (Run.setup env m).bind
  fun m => (Run.solveLoop env fuel m).bind
  fun m => forEach m.self.simulations_
    (fun simulation => invoke (.Post simulation) (env.sim simulation).Post) m

/-- `NumSimComm::Finalize` (NumSimComm.cpp, lines 23-26); `MPI_Finalize` is a C function and
does not throw. -/
def commFinalize (env : Env ι σ ε) (m : Machine ι σ ε) : Machine ι σ ε :=
  { m with world := env.MPI_Finalize m.world, trace := m.trace ++ [(.CommFinalize, none)] }

/-- `NumSimFramework::Finalize` (NumSimFramework.cpp, lines 108-119). -/
def Finalize (env : Env ι σ ε) (m : Machine ι σ ε) : Outcome ι σ ε (Machine ι σ ε) :=
  (forEach m.self.simulations_
    (fun simulation => invoke (.Finalize simulation) (env.sim simulation).Finalize) m).bind
  fun m => .returned
    (match m.self.comm_ with
     | some _ => commFinalize env m
     | none => m)

/-- The two statements `framework->Run(); framework->Finalize();` of `main`
(main.cpp, lines 73-74), which stand in no `try` block. -/
def runThenFinalize (env : Env ι σ ε) (fuel : Nat) (m : Machine ι σ ε) :
    Outcome ι σ ε (Machine ι σ ε) :=
  (Run env fuel m).bind (Finalize env)

/-- No call of the trace `t` failed, and all of them are lifecycle calls on instances. -/
def Clean (t : List (Call ι × Option ε)) : Prop :=
  ∀ x ∈ t, x.2 = none ∧ x.1.isLifecycle = true

/-- The last call of the trace `t` is a lifecycle call that threw `e`, and the calls before it
all returned and are lifecycle calls on instances. -/
def FailedLast (e : ε) (t : List (Call ι × Option ε)) : Prop :=
  ∃ pre c, t = pre ++ [(c, some e)] ∧ Clean pre ∧ c.isLifecycle = true

/-- The outcome `r` of code started in `m0` keeps the framework object, and extends the trace
of `m0` by calls that all returned when `r` is not an exception, and by calls of which exactly
the last one threw when it is. -/
def Sound (proj : α → Machine ι σ ε) (m0 : Machine ι σ ε) : Outcome ι σ ε α → Prop
  | .returned a => (proj a).self = m0.self ∧ ∃ t, (proj a).trace = m0.trace ++ t ∧ Clean t
  | .running m => m.self = m0.self ∧ ∃ t, m.trace = m0.trace ++ t ∧ Clean t
  | .thrown e m => m.self = m0.self ∧ ∃ t, m.trace = m0.trace ++ t ∧ FailedLast e t

/-- The throwing counterpart of objects that never throw. -/
def ofEnv (env : NumSimSolver.Env ι σ) : Env ι σ ε :=
  { sim := fun a =>
      { ReadMesh := fun w => .ok ((env.sim a).ReadMesh w)
        InitFields := fun flag w => .ok ((env.sim a).InitFields flag w)
        InitBoundaries := fun flag w => .ok ((env.sim a).InitBoundaries flag w)
        InitFromRestart := fun w => .ok ((env.sim a).InitFromRestart w)
        Solve := fun w => .ok ((env.sim a).Solve w)
        Post := fun w => .ok ((env.sim a).Post w)
        Finalize := fun w => .ok ((env.sim a).Finalize w)
        IsFinished := fun w => .ok ((env.sim a).IsFinished w) }
    MPI_Finalize := env.MPI_Finalize }

/-- The machine of the throwing semantics that corresponds to a machine in which no call
failed. -/
def ofMachine (m : NumSimSolver.Machine ι σ) : Machine ι σ ε :=
  { self := m.self, world := m.world, trace := m.trace.map (fun c => (c, none)) }

/-- The outcome of the throwing semantics that corresponds to an outcome without failure. -/
def ofOutcome : NumSimSolver.Outcome (NumSimSolver.Machine ι σ) → Outcome ι σ ε (Machine ι σ ε)
  | .returned m => .returned (ofMachine m)
  | .running m => .running (ofMachine m)

end Throwing

/-! ## Identity and configuration carrier (NumSimObject.h)

A pointer `boost::json::object*` is `Option δ`, `δ` being the type of the references to
configuration documents and `none` the null pointer. -/

section Carrier

variable {δ β μ : Type}

/-- The data members of `class NumSimObject` (NumSimObject.h, lines 60-64) with their default
member initialisers: the strings start empty, the pointer starts as `nullptr`. -/
structure NumSimObject (δ : Type) where
  className_ : String := ""
  objectName_ : String := ""
  numSimSolverJson_ : Option δ := none

/-- Modelled from the spec: the body of the constructor `NumSimObject::NumSimObject()`, which is
declared at NumSimObject.h, line 26, and defined outside the given sources. The spec gives an
object name that is empty by default and a configuration reference that is absent until it is
set, which is what the default member initialisers of lines 63-64 give. -/
def NumSimObject.construct : NumSimObject δ :=
  {}

/-- `NumSimObject::GetObjectName` (NumSimObject.h, lines 29-32). -/
def NumSimObject.GetObjectName (self : NumSimObject δ) : String :=
  self.objectName_

/-- `NumSimObject::SetObjectName` (NumSimObject.h, lines 34-37). -/
def NumSimObject.SetObjectName (objectName : String) (self : NumSimObject δ) : NumSimObject δ :=
  { self with objectName_ := objectName }

/-- `NumSimObject::GetClassName` (NumSimObject.h, lines 39-42). -/
def NumSimObject.GetClassName (self : NumSimObject δ) : String :=
  self.className_

/-- `NumSimObject::GetNumSimSolverJson` (NumSimObject.h, lines 44-52): the stored pointer is
tested against null and returned; nothing is read through it. -/
def NumSimObject.GetNumSimSolverJson (self : NumSimObject δ) : Option δ :=
  if self.numSimSolverJson_.isSome then
    self.numSimSolverJson_
  else
    none

/-- `NumSimObject::SetNumSimSolverJson` (NumSimObject.h, lines 54-57): the address of the
document is stored. -/
def NumSimObject.SetNumSimSolverJson (numSimSolverJson : δ) (self : NumSimObject δ) :
    NumSimObject δ :=
  { self with numSimSolverJson_ := some numSimSolverJson }

/-! ## Plugin factory (NumSimObject.h, lines 67-77) -/

/-- `std::string::c_str()` as a callee taking `const char*` reads it: the characters before the
first NUL character. -/
def c_str (s : String) : String :=
  ⟨s.data.takeWhile (fun ch => ch != Char.ofNat 0)⟩

/-- The name `NUMSIM_CREATE_OBJECT` looks up (NumSimObject.h, line 77):
`(std::string("Create") + className).c_str()`. -/
def NUMSIM_CREATE_OBJECT.symbolName (className : String) : String :=
  c_str ("Create" ++ className)

/-- The failure of a plugin resolution: no module is loaded behind the handle, or the loaded
module does not export the entry point. -/
inductive PluginResolutionError where
  | notLoaded
  | symbolMissing (name : String)
  deriving DecidableEq, Repr

/-- Modelled from the spec: the module handle `boost::dll::shared_library`, which is not among
the sources. A handle is empty (`none`, no module loaded: the default-constructed handle) or
holds the aliases the loaded module exports, each with its constructor entry point. -/
structure shared_library (β : Type) where
  aliases : Option (List (String × (Unit → β))) := none

/-- Modelled from the spec: `shared_library::get_alias`, which is not among the sources. The
lookup of a constructor entry point fails with a plugin-resolution error when no module is
loaded or when the entry point is absent from the loaded module. -/
def shared_library.get_alias (lib : shared_library β) (name : String) :
    Except PluginResolutionError (Unit → β) :=
  match lib.aliases with
  | none => .error .notLoaded
  | some table =>
    match table.lookup name with
    | none => .error (.symbolMissing name)
    | some entry => .ok entry

/-- Modelled from the spec: the registry `classNameAndDllMaps`, a mapping from class name to
module handle whose type is not among the sources. -/
abbrev ClassNameAndDllMaps (β : Type) := List (String × shared_library β)

/-- Modelled from the spec: `classNameAndDllMaps[className]`. A registered class name gives its
module handle; a class name that is not registered gives a handle behind which no module is
loaded (the standard `operator[]` inserts a default-constructed handle under that name). -/
def ClassNameAndDllMaps.index (classNameAndDllMaps : ClassNameAndDllMaps β)
    (className : String) : ClassNameAndDllMaps β × shared_library β :=
  match classNameAndDllMaps.lookup className with
  | some lib => (classNameAndDllMaps, lib)
  | none => (classNameAndDllMaps ++ [(className, {})], {})

/-- `NUMSIM_CREATE_OBJECT(classNameAndDllMaps, baseClassName, className)` (NumSimObject.h,
lines 76-77): the handle registered for the class name is indexed, the entry point
`"Create" + className` is looked up in it and called. The result is the registry after the
indexing and either the object constructed or the error of the lookup. -/
def NUMSIM_CREATE_OBJECT (classNameAndDllMaps : ClassNameAndDllMaps β) (className : String) :
    ClassNameAndDllMaps β × Except PluginResolutionError β :=
  let r := ClassNameAndDllMaps.index classNameAndDllMaps className
  match r.2.get_alias (NUMSIM_CREATE_OBJECT.symbolName className) with
  | .error e => (r.1, .error e)
  | .ok entry => (r.1, .ok (entry ()))

/-- `NUMSIM_CREATE_OBJECT` used as an expression inside a method of the framework, in the
semantics where a call may throw: the value is the object constructed; when the lookup fails the
exception propagates out of the expression, in the state the expression was started in. The
result is the registry after the indexing and the outcome. -/
def Throwing.NUMSIM_CREATE_OBJECT (classNameAndDllMaps : ClassNameAndDllMaps ι)
    (className : String) (m : Throwing.Machine ι σ PluginResolutionError) :
    ClassNameAndDllMaps ι × Throwing.Outcome ι σ PluginResolutionError ι :=
  match NumSimSolver.NUMSIM_CREATE_OBJECT classNameAndDllMaps className with
  | (maps, .ok obj) => (maps, .returned obj)
  | (maps, .error e) => (maps, .thrown e m)

/-! ## Process Group (NumSimComm.h, NumSimComm.cpp)

The methods of `NumSimComm` when a call into the MPI library may fail fatally. `μ` is the state
of the MPI runtime of the process; a call that fails yields `.error`. -/

/-- `NumSimComm::NumSimComm` (NumSimComm.cpp, lines 7-10): only the class name is assigned, the
two data members keep their default member initialisers. -/
def NumSimComm.construct : NumSimComm :=
  {}

/-- `NumSimComm::GetMyRank` (NumSimComm.h, lines 18-21). -/
def NumSimComm.GetMyRank (self : NumSimComm) : Int :=
  self.myRank_

/-- `NumSimComm::GetNumProcs` (NumSimComm.h, lines 23-26). -/
def NumSimComm.GetNumProcs (self : NumSimComm) : Int :=
  self.numProcs_

namespace Bootstrap

/-- The failure of a call into the MPI library. -/
inductive MPIError where
  | alreadyInitialized
  | notInitialized
  deriving DecidableEq, Repr

/-- The four functions of the MPI library the code calls (NumSimComm.cpp, lines 18-20
and 25). A call that fails is fatal to the process and yields `.error`; the status codes the
functions return are discarded by the code and are not modelled. -/
structure MPI (μ : Type) where
  MPI_Init : μ → Except MPIError μ
  MPI_Comm_rank : μ → Except MPIError Int
  MPI_Comm_size : μ → Except MPIError Int
  MPI_Finalize : μ → Except MPIError μ

/-- `NumSimComm::Initialize` (NumSimComm.cpp, lines 16-21). -/
def Initialize (mpi : MPI μ) (_numSimSolverJson : JsonObject) (self : NumSimComm) (w : μ) :
    Except MPIError (NumSimComm × μ) :=
  match mpi.MPI_Init w with
  | .error e => .error e
  | .ok w =>
    match mpi.MPI_Comm_rank w with
    | .error e => .error e
    | .ok rank =>
      match mpi.MPI_Comm_size w with
      | .error e => .error e
      | .ok size => .ok ({ self with myRank_ := rank, numProcs_ := size }, w)

/-- `NumSimComm::PrintInfo` (NumSimComm.h, line 15): an empty body. -/
def PrintInfo (self : NumSimComm) (w : μ) : Except MPIError (NumSimComm × μ) :=
  .ok (self, w)

/-- `NumSimComm::Finalize` (NumSimComm.cpp, lines 23-26). -/
def Finalize (mpi : MPI μ) (self : NumSimComm) (w : μ) : Except MPIError (NumSimComm × μ) :=
  match mpi.MPI_Finalize w with
  | .error e => .error e
  | .ok w => .ok (self, w)

/-- One call of a method of `NumSimComm` that is not an accessor. -/
inductive CommCall where
  | Initialize (numSimSolverJson : JsonObject)
  | PrintInfo
  | Finalize

/-- The call is an `Initialize`. -/
def CommCall.isInitialize : CommCall → Bool
  | .Initialize _ => true
  | _ => false

/-- The effect of one call on the object and on the MPI runtime. -/
def call (mpi : MPI μ) (c : CommCall) (s : NumSimComm × μ) : Except MPIError (NumSimComm × μ) :=
  match c with
  | .Initialize numSimSolverJson => Initialize mpi numSimSolverJson s.1 s.2
  | .PrintInfo => PrintInfo s.1 s.2
  | .Finalize => Finalize mpi s.1 s.2

/-- The effect of a sequence of calls, which stops at the first one that fails. -/
def calls (mpi : MPI μ) : List CommCall → NumSimComm × μ → Except MPIError (NumSimComm × μ)
  | [], s => .ok s
  | c :: rest, s =>
    match call mpi c s with
    | .error e => .error e
    | .ok s => calls mpi rest s

/-- Modelled from the spec: the state of the MPI runtime of one process, which is not among the
sources: whether the collective initialization has been performed, whether the group has been
released, and the rank and size the launch context gives the process. -/
structure Process where
  initialized : Bool := false
  finalized : Bool := false
  rank : Int
  size : Int
  deriving DecidableEq, Repr

/-- Modelled from the spec: the MPI library, which is not among the sources. The initialization
is one-time: it fails fatally when it is invoked more than once per process. The release of the
group must come after the initialization, and once. Rank and size are those of the launch
context and are available between the two. -/
def specMPI : MPI Process :=
  { MPI_Init := fun w =>
      if w.initialized then .error .alreadyInitialized
      else .ok { w with initialized := true }
    MPI_Comm_rank := fun w =>
      if w.initialized && !w.finalized then .ok w.rank else .error .notInitialized
    MPI_Comm_size := fun w =>
      if w.initialized && !w.finalized then .ok w.size else .error .notInitialized
    MPI_Finalize := fun w =>
      if w.initialized && !w.finalized then .ok { w with finalized := true }
      else .error .notInitialized }

end Bootstrap

end Carrier

/-! ## Test doubles used to instantiate the theorems -/

/-- Every simulation object keeps the bodies of the base class `NumSimSimulation`. -/
def baseEnv : Env String Unit :=
  { sim := fun _ => {}, MPI_Finalize := id }

/-- Fake simulations with a scripted finished predicate: the heap holds, for each instance, the
number of `Solve` calls it still needs; `Solve` on an instance lowers its own count. -/
def scriptedEnv : Env Nat (Nat → Nat) :=
  { sim := fun a =>
      { Solve := fun w => Function.update w a (w a - 1)
        IsFinished := fun w => w a == 0 }
    MPI_Finalize := id }

/-- A fake simulation that never reports finished. -/
def endlessEnv : Env String Unit :=
  { sim := fun _ => { IsFinished := fun _ => false }, MPI_Finalize := id }

/-- Fake simulations whose methods all return, except `ReadMesh` on the instance "A", which
throws. -/
def meshFailEnv : Throwing.Env String Unit String :=
  { sim := fun a =>
      { ReadMesh := fun w => if a = "A" then .error "cannot read mesh" else .ok w
        InitFields := fun _ w => .ok w
        InitBoundaries := fun _ w => .ok w
        InitFromRestart := fun w => .ok w
        Solve := fun w => .ok w
        Post := fun w => .ok w
        Finalize := fun w => .ok w
        IsFinished := fun _ => .ok true }
    MPI_Finalize := id }

/-- Fake simulations whose methods all return, except `Finalize` on the instance "A", which
throws. -/
def finalizeFailEnv : Throwing.Env String Unit String :=
  { sim := fun a =>
      { ReadMesh := fun w => .ok w
        InitFields := fun _ w => .ok w
        InitBoundaries := fun _ w => .ok w
        InitFromRestart := fun w => .ok w
        Solve := fun w => .ok w
        Post := fun w => .ok w
        Finalize := fun w => if a = "A" then .error "cannot flush" else .ok w
        IsFinished := fun _ => .ok true }
    MPI_Finalize := id }

/-- A configuration document that names two simulations. -/
def demoConfig : JsonObject :=
  [("simulations", JsonValue.array
    [JsonValue.object [("name", JsonValue.string "A"), ("class", JsonValue.string "Fluid")],
     JsonValue.object [("name", JsonValue.string "B"), ("class", JsonValue.string "Thermal")]])]

/-- A process launched as rank 2 of 4 that has called nothing yet. -/
def demoProcess : Bootstrap.Process :=
  { rank := 2, size := 4 }

/-- Fake simulations that share one counter of the solves still to be done: an instance reports
finished when the counter is zero, and `Solve` lowers it. -/
def countdownEnv : Env String Nat :=
  { sim := fun _ => { Solve := fun n => n - 1, IsFinished := fun n => n == 0 }
    MPI_Finalize := id }

/-! ## Basic facts about the operations -/

@[simp] theorem invoke_trace (c : Call ι) (f : σ → σ) (m : Machine ι σ) :
    (invoke c f m).trace = m.trace ++ [c] := rfl

@[simp] theorem invoke_self (c : Call ι) (f : σ → σ) (m : Machine ι σ) :
    (invoke c f m).self = m.self := rfl

@[simp] theorem invoke_world (c : Call ι) (f : σ → σ) (m : Machine ι σ) :
    (invoke c f m).world = f m.world := rfl

theorem forEach_nil (body : ι → Machine ι σ → Machine ι σ) (m : Machine ι σ) :
    forEach [] body m = m := rfl

theorem forEach_cons (a : ι) (sims : List ι) (body : ι → Machine ι σ → Machine ι σ)
    (m : Machine ι σ) : forEach (a :: sims) body m = forEach sims body (body a m) := rfl

theorem forEach_invoke_trace (c : ι → Call ι) (f : ι → σ → σ) (sims : List ι)
    (m : Machine ι σ) :
    (forEach sims (fun a => invoke (c a) (f a)) m).trace = m.trace ++ sims.map c := by
  induction sims generalizing m with
  | nil => simp [forEach_nil]
  | cons a rest ih => simp [forEach_cons, ih]

theorem forEach_invoke_self (c : ι → Call ι) (f : ι → σ → σ) (sims : List ι)
    (m : Machine ι σ) :
    (forEach sims (fun a => invoke (c a) (f a)) m).self = m.self := by
  induction sims generalizing m with
  | nil => simp [forEach_nil]
  | cons a rest ih => simp [forEach_cons, ih]

theorem forFlag_eq (body : Int → Machine ι σ → Machine ι σ) (m : Machine ι σ) :
    forFlag body m = body 1 (body 0 m) := rfl

theorem setup_self (env : Env ι σ) (m : Machine ι σ) : (Run.setup env m).self = m.self := by
  simp [Run.setup, forFlag_eq, forEach_invoke_self]

theorem setup_trace (env : Env ι σ) (m : Machine ι σ) :
    (Run.setup env m).trace = m.trace ++ setupCalls m.self.simulations_ := by
  simp [Run.setup, forFlag_eq, forEach_invoke_self, forEach_invoke_trace, setupCalls,
    initFieldsCalls, initBoundariesCalls]

theorem finalPost_self (env : Env ι σ) (m : Machine ι σ) :
    (Run.finalPost env m).self = m.self := by
  simp [Run.finalPost, forEach_invoke_self]

theorem finalPost_trace (env : Env ι σ) (m : Machine ι σ) :
    (Run.finalPost env m).trace = m.trace ++ m.self.simulations_.map Call.Post := by
  simp [Run.finalPost, forEach_invoke_trace]

theorem visit_foldl (env : Env ι σ) (sims : List ι) (b : Bool) (m : Machine ι σ) :
    sims.foldl (Run.visit env) (b, m) =
      (b && passAllFinished env sims m.world,
        { self := m.self, world := passWorld env sims m.world,
          trace := m.trace ++ passCalls env sims m.world }) := by
  induction sims generalizing b m with
  | nil => simp [passAllFinished, passWorld, passCalls]
  | cons a rest ih =>
    by_cases h : (env.sim a).IsFinished m.world = true
    · simp [List.foldl, Run.visit, h, ih, passAllFinished, passWorld, passCalls]
    · simp only [Bool.not_eq_true] at h
      simp [List.foldl, Run.visit, h, ih, passAllFinished, passWorld, passCalls]

theorem solvePass_eq (env : Env ι σ) (m : Machine ι σ) :
    Run.solvePass env m =
      (passAllFinished env m.self.simulations_ m.world,
        { self := m.self, world := passWorld env m.self.simulations_ m.world,
          trace := m.trace ++ passCalls env m.self.simulations_ m.world }) := by
  simp [Run.solvePass, visit_foldl]

theorem passCalls_isLoopCall (env : Env ι σ) (sims : List ι) (w : σ) :
    ∀ c ∈ passCalls env sims w, c.isLoopCall = true := by
  induction sims generalizing w with
  | nil => simp [passCalls]
  | cons a rest ih =>
    intro c hc
    unfold passCalls at hc
    split at hc
    · rcases List.mem_cons.1 hc with h | h
      · subst h; rfl
      · exact ih _ c h
    · simp only [List.mem_cons] at hc
      rcases hc with h | h | h | h
      · subst h; rfl
      · subst h; rfl
      · subst h; rfl
      · exact ih _ c h

theorem SolveThenPost_nil : SolveThenPost ([] : List (Call ι)) := by
  intro pre a post h
  simp at h

theorem SolveThenPost_append {t1 t2 : List (Call ι)} (h1 : SolveThenPost t1)
    (h2 : SolveThenPost t2) : SolveThenPost (t1 ++ t2) := by
  intro pre a post h
  rcases List.append_eq_append_iff.1 h with ⟨mid, hpre, ht2⟩ | ⟨mid, ht1, hmid⟩
  · exact h2 mid a post ht2
  · cases mid with
    | nil =>
      simp only [List.nil_append] at hmid
      exact h2 [] a post (by simpa using hmid.symm)
    | cons x mid =>
      simp only [List.cons_append, List.cons.injEq] at hmid
      obtain ⟨hx, hpost⟩ := hmid
      subst hx
      obtain ⟨rest, hrest⟩ := h1 pre a mid ht1
      exact ⟨rest ++ t2, by rw [hpost, hrest]; rfl⟩

theorem SolveThenPost_finished (a : ι) : SolveThenPost [Call.IsFinished a] := by
  intro pre b post h
  rcases pre with _ | ⟨x, pre⟩
  · simp at h
  · simp at h

theorem SolveThenPost_solved (a : ι) :
    SolveThenPost [Call.IsFinished a, Call.Solve a, Call.Post a] := by
  intro pre b post h
  rcases pre with _ | ⟨x, _ | ⟨y, _ | ⟨z, pre⟩⟩⟩
  · simp at h
  · simp only [List.cons_append, List.nil_append, List.cons.injEq, Call.Solve.injEq] at h
    obtain ⟨-, hb, hpost⟩ := h
    exact ⟨[], by rw [← hpost, hb]⟩
  · simp at h
  · simp at h

theorem passCalls_SolveThenPost (env : Env ι σ) (sims : List ι) (w : σ) :
    SolveThenPost (passCalls env sims w) := by
  induction sims generalizing w with
  | nil => exact SolveThenPost_nil
  | cons a rest ih =>
    unfold passCalls
    split
    · exact SolveThenPost_append (SolveThenPost_finished a) (ih w)
    · exact SolveThenPost_append (SolveThenPost_solved a) (ih _)

theorem solveLoop_self (env : Env ι σ) (fuel : Nat) (m : Machine ι σ) :
    (Run.solveLoop env fuel m).machine.self = m.self := by
  induction fuel generalizing m with
  | zero => rfl
  | succ n ih =>
    simp only [Run.solveLoop, solvePass_eq]
    split
    · rfl
    · rw [ih]

theorem solveLoop_trace (env : Env ι σ) (fuel : Nat) (m : Machine ι σ) :
    ∃ t : List (Call ι), (Run.solveLoop env fuel m).machine.trace = m.trace ++ t ∧
      (∀ c ∈ t, c.isLoopCall = true) ∧ SolveThenPost t := by
  induction fuel generalizing m with
  | zero => exact ⟨[], by simp [Run.solveLoop, Outcome.machine], by simp, SolveThenPost_nil⟩
  | succ n ih =>
    simp only [Run.solveLoop, solvePass_eq]
    split
    · exact ⟨_, rfl, passCalls_isLoopCall env _ _, passCalls_SolveThenPost env _ _⟩
    · obtain ⟨t, ht, hall, hsp⟩ := ih
        { self := m.self, world := passWorld env m.self.simulations_ m.world,
          trace := m.trace ++ passCalls env m.self.simulations_ m.world }
      refine ⟨passCalls env m.self.simulations_ m.world ++ t, ?_, ?_,
        SolveThenPost_append (passCalls_SolveThenPost env _ _) hsp⟩
      · rw [ht]; simp
      · intro c hc
        rcases List.mem_append.1 hc with h | h
        · exact passCalls_isLoopCall env _ _ c h
        · exact hall c h

/-- The shape of the trace of `Run`, whether it returned or is still in the solve loop. -/
theorem Run_shape (env : Env ι σ) (fuel : Nat) (m : Machine ι σ) :
    ∃ t : List (Call ι), ((∀ c ∈ t, c.isLoopCall = true) ∧ SolveThenPost t) ∧
      ((∃ m1, NumSimFramework.Run env fuel m = .returned m1 ∧ m1.self = m.self ∧
          m1.trace = m.trace ++ setupCalls m.self.simulations_ ++ t ++
            m.self.simulations_.map Call.Post) ∨
       (∃ m1, NumSimFramework.Run env fuel m = .running m1 ∧ m1.self = m.self ∧
          m1.trace = m.trace ++ setupCalls m.self.simulations_ ++ t)) := by
  obtain ⟨t, ht, hall⟩ := solveLoop_trace env fuel (Run.setup env m)
  have hs := solveLoop_self env fuel (Run.setup env m)
  refine ⟨t, hall, ?_⟩
  unfold NumSimFramework.Run
  cases hr : Run.solveLoop env fuel (Run.setup env m) with
  | returned m1 =>
    left
    rw [hr] at ht hs
    simp only [Outcome.machine] at ht hs
    refine ⟨_, rfl, ?_, ?_⟩
    · rw [finalPost_self, hs, setup_self]
    · rw [finalPost_trace, ht, hs, setup_trace, setup_self]
  | running m1 =>
    right
    rw [hr] at ht hs
    simp only [Outcome.machine] at ht hs
    refine ⟨_, rfl, ?_, ?_⟩
    · rw [hs, setup_self]
    · rw [ht, setup_trace]

theorem filter_map_none (p : Call ι → Bool) (c : ι → Call ι) (sims : List ι)
    (h : ∀ a, p (c a) = false) : (sims.map c).filter p = [] := by
  induction sims with
  | nil => rfl
  | cons a rest ih => simp [List.filter, h, ih]

theorem filter_map_all (p : Call ι → Bool) (c : ι → Call ι) (sims : List ι)
    (h : ∀ a, p (c a) = true) : (sims.map c).filter p = sims.map c := by
  induction sims with
  | nil => rfl
  | cons a rest ih => simp [List.filter, h, ih]

theorem filter_loop_none (p : Call ι → Bool) (t : List (Call ι))
    (hp : ∀ c : Call ι, c.isLoopCall = true → p c = false)
    (h : ∀ c ∈ t, c.isLoopCall = true) : t.filter p = [] := by
  rw [List.filter_eq_nil_iff]
  intro c hc
  simp [hp c (h c hc)]

/-! ## The claims -/

/-- C1: the `InitFields` calls of `Run` are `InitFields(0)` on every instance in collection
order followed by `InitFields(1)` on every instance in collection order, and likewise for
`InitBoundaries`; this holds for every collection and at every point of the execution from the
solve loop on (whether `Run` has returned or is still looping after `fuel` passes). -/
theorem C1_two_pass_setup_order (env : Env ι σ) (fw : NumSimFramework ι) (w : σ) (fuel : Nat) :
    ((NumSimFramework.Run env fuel ⟨fw, w, []⟩).machine.trace.filter Call.isInitFields =
        fw.simulations_.map (fun a => Call.InitFields a 0) ++
          fw.simulations_.map (fun a => Call.InitFields a 1)) ∧
    ((NumSimFramework.Run env fuel ⟨fw, w, []⟩).machine.trace.filter Call.isInitBoundaries =
        fw.simulations_.map (fun a => Call.InitBoundaries a 0) ++
          fw.simulations_.map (fun a => Call.InitBoundaries a 1)) := by
  obtain ⟨t, ⟨hall, hsp⟩, h⟩ := Run_shape env fuel ⟨fw, w, []⟩
  have hF : t.filter Call.isInitFields = [] :=
    filter_loop_none _ t (by intro c hc; cases c <;> simp_all [Call.isLoopCall, Call.isInitFields]) hall
  have hB : t.filter Call.isInitBoundaries = [] :=
    filter_loop_none _ t
      (by intro c hc; cases c <;> simp_all [Call.isLoopCall, Call.isInitBoundaries]) hall
  rcases h with ⟨m1, hr, -, htr⟩ | ⟨m1, hr, -, htr⟩
  · rw [hr]
    simp only [Outcome.machine, htr, List.nil_append, List.filter_append, hF, hB, setupCalls,
      initFieldsCalls, initBoundariesCalls]
    constructor
    · rw [filter_map_none _ Call.ReadMesh _ (fun _ => rfl), filter_map_all _ _ _ (fun _ => rfl),
        filter_map_all _ _ _ (fun _ => rfl), filter_map_none _ _ _ (fun _ => rfl),
        filter_map_none _ _ _ (fun _ => rfl), filter_map_none _ Call.InitFromRestart _ (fun _ => rfl),
        filter_map_none _ Call.Post _ (fun _ => rfl)]
      simp
    · rw [filter_map_none _ Call.ReadMesh _ (fun _ => rfl), filter_map_none _ _ _ (fun _ => rfl),
        filter_map_none _ _ _ (fun _ => rfl), filter_map_all _ _ _ (fun _ => rfl),
        filter_map_all _ _ _ (fun _ => rfl), filter_map_none _ Call.InitFromRestart _ (fun _ => rfl),
        filter_map_none _ Call.Post _ (fun _ => rfl)]
      simp
  · rw [hr]
    simp only [Outcome.machine, htr, List.nil_append, List.filter_append, hF, hB, setupCalls,
      initFieldsCalls, initBoundariesCalls]
    constructor
    · rw [filter_map_none _ Call.ReadMesh _ (fun _ => rfl), filter_map_all _ _ _ (fun _ => rfl),
        filter_map_all _ _ _ (fun _ => rfl), filter_map_none _ _ _ (fun _ => rfl),
        filter_map_none _ _ _ (fun _ => rfl), filter_map_none _ Call.InitFromRestart _ (fun _ => rfl),
        filter_map_none _ Call.Post _ (fun _ => rfl)]
      simp
    · rw [filter_map_none _ Call.ReadMesh _ (fun _ => rfl), filter_map_none _ _ _ (fun _ => rfl),
        filter_map_none _ _ _ (fun _ => rfl), filter_map_all _ _ _ (fun _ => rfl),
        filter_map_all _ _ _ (fun _ => rfl), filter_map_none _ Call.InitFromRestart _ (fun _ => rfl),
        filter_map_none _ Call.Post _ (fun _ => rfl)]
      simp

/-- Witness of C1, the scenario of the collection ["A", "B"]: the `InitFields` calls are
`A.InitFields(0)`, `B.InitFields(0)`, `A.InitFields(1)`, `B.InitFields(1)`. -/
theorem C1_two_pass_setup_order_witness :
    (NumSimFramework.Run baseEnv 1
        ⟨{ simulations_ := ["A", "B"] }, (), []⟩).machine.trace.filter Call.isInitFields =
      [Call.InitFields "A" 0, Call.InitFields "B" 0, Call.InitFields "A" 1,
        Call.InitFields "B" 1] :=
  (C1_two_pass_setup_order baseEnv { simulations_ := ["A", "B"] } () 1).1

/-! ### C2, C3 -/

theorem Finalize_trace (env : Env ι σ) (m : Machine ι σ) :
    (NumSimFramework.Finalize env m).trace =
      m.trace ++ m.self.simulations_.map Call.Finalize ++ commCalls Call.CommFinalize m.self := by
  unfold NumSimFramework.Finalize commCalls
  simp only [forEach_invoke_self]
  cases h : m.self.comm_ with
  | none => simp [forEach_invoke_trace]
  | some c => simp [NumSimComm.Finalize, forEach_invoke_trace]

theorem Finalize_self (env : Env ι σ) (m : Machine ι σ) :
    (NumSimFramework.Finalize env m).self = m.self := by
  unfold NumSimFramework.Finalize
  simp only [forEach_invoke_self]
  cases h : m.self.comm_ with
  | none => simp [forEach_invoke_self]
  | some c => simp [NumSimComm.Finalize, forEach_invoke_self]

theorem commCalls_filter_none (p : Call ι → Bool) (c : Call ι) (fw : NumSimFramework ι)
    (h : p c = false) : (commCalls c fw).filter p = [] := by
  unfold commCalls
  cases fw.comm_ <;> simp [h]

/-- The single-pass phases in the trace of a terminating `Run` followed by `Finalize`. -/
theorem Run_then_Finalize_phases (env : Env ι σ) (fw : NumSimFramework ι) (w : σ)
    (fuel : Nat) (m1 : Machine ι σ)
    (hrun : NumSimFramework.Run env fuel ⟨fw, w, []⟩ = .returned m1) :
    (NumSimFramework.Finalize env m1).trace.filter Call.isReadMesh =
        fw.simulations_.map Call.ReadMesh ∧
    (NumSimFramework.Finalize env m1).trace.filter Call.isInitFromRestart =
        fw.simulations_.map Call.InitFromRestart ∧
    (NumSimFramework.Finalize env m1).trace.filter Call.isFinalize =
        fw.simulations_.map Call.Finalize ∧
    ∃ before loop after : List (Call ι),
      (NumSimFramework.Finalize env m1).trace =
        before ++ fw.simulations_.map Call.Post ++ loop ++ fw.simulations_.map Call.Post ++
          after ∧
      before.filter Call.isPost = [] ∧ before.filter Call.isLoopCall = [] ∧
      (∀ c ∈ loop, c.isLoopCall = true) ∧
      after.filter Call.isPost = [] ∧ after.filter Call.isLoopCall = [] := by
  obtain ⟨t, ⟨hall, hsp⟩, h⟩ := Run_shape env fuel ⟨fw, w, []⟩
  rcases h with ⟨m2, hr, hself, htr⟩ | ⟨m2, hr, -, -⟩
  swap
  · rw [hr] at hrun; cases hrun
  rw [hr] at hrun
  cases hrun
  simp only [List.nil_append] at htr hself
  have hR : t.filter Call.isReadMesh = [] :=
    filter_loop_none _ t (by intro c hc; cases c <;> simp_all [Call.isLoopCall, Call.isReadMesh]) hall
  have hI : t.filter Call.isInitFromRestart = [] :=
    filter_loop_none _ t
      (by intro c hc; cases c <;> simp_all [Call.isLoopCall, Call.isInitFromRestart]) hall
  have hF : t.filter Call.isFinalize = [] :=
    filter_loop_none _ t (by intro c hc; cases c <;> simp_all [Call.isLoopCall, Call.isFinalize]) hall
  rw [Finalize_trace, htr, hself]
  refine ⟨?_, ?_, ?_, ?_⟩
  · simp only [List.filter_append, hR, setupCalls, initFieldsCalls, initBoundariesCalls]
    rw [filter_map_all _ Call.ReadMesh _ (fun _ => rfl), filter_map_none _ _ _ (fun _ => rfl),
      filter_map_none _ _ _ (fun _ => rfl), filter_map_none _ _ _ (fun _ => rfl),
      filter_map_none _ _ _ (fun _ => rfl), filter_map_none _ Call.InitFromRestart _ (fun _ => rfl),
      filter_map_none _ Call.Post _ (fun _ => rfl), filter_map_none _ Call.Finalize _ (fun _ => rfl),
      commCalls_filter_none _ _ _ rfl]
    simp
  · simp only [List.filter_append, hI, setupCalls, initFieldsCalls, initBoundariesCalls]
    rw [filter_map_none _ Call.ReadMesh _ (fun _ => rfl), filter_map_none _ _ _ (fun _ => rfl),
      filter_map_none _ _ _ (fun _ => rfl), filter_map_none _ _ _ (fun _ => rfl),
      filter_map_none _ _ _ (fun _ => rfl), filter_map_all _ Call.InitFromRestart _ (fun _ => rfl),
      filter_map_none _ Call.Post _ (fun _ => rfl), filter_map_none _ Call.Finalize _ (fun _ => rfl),
      commCalls_filter_none _ _ _ rfl]
    simp
  · simp only [List.filter_append, hF, setupCalls, initFieldsCalls, initBoundariesCalls]
    rw [filter_map_none _ Call.ReadMesh _ (fun _ => rfl), filter_map_none _ _ _ (fun _ => rfl),
      filter_map_none _ _ _ (fun _ => rfl), filter_map_none _ _ _ (fun _ => rfl),
      filter_map_none _ _ _ (fun _ => rfl), filter_map_none _ Call.InitFromRestart _ (fun _ => rfl),
      filter_map_none _ Call.Post _ (fun _ => rfl), filter_map_all _ Call.Finalize _ (fun _ => rfl),
      commCalls_filter_none _ _ _ rfl]
    simp
  · refine ⟨fw.simulations_.map Call.ReadMesh ++ initFieldsCalls fw.simulations_ ++
        initBoundariesCalls fw.simulations_ ++ fw.simulations_.map Call.InitFromRestart, t,
      fw.simulations_.map Call.Finalize ++ commCalls Call.CommFinalize fw, ?_, ?_, ?_, hall, ?_, ?_⟩
    · simp [setupCalls, List.append_assoc]
    · simp only [List.filter_append, initFieldsCalls, initBoundariesCalls]
      rw [filter_map_none _ Call.ReadMesh _ (fun _ => rfl), filter_map_none _ _ _ (fun _ => rfl),
        filter_map_none _ _ _ (fun _ => rfl), filter_map_none _ _ _ (fun _ => rfl),
        filter_map_none _ _ _ (fun _ => rfl), filter_map_none _ Call.InitFromRestart _ (fun _ => rfl)]
      rfl
    · simp only [List.filter_append, initFieldsCalls, initBoundariesCalls]
      rw [filter_map_none _ Call.ReadMesh _ (fun _ => rfl), filter_map_none _ _ _ (fun _ => rfl),
        filter_map_none _ _ _ (fun _ => rfl), filter_map_none _ _ _ (fun _ => rfl),
        filter_map_none _ _ _ (fun _ => rfl), filter_map_none _ Call.InitFromRestart _ (fun _ => rfl)]
      rfl
    · simp only [List.filter_append]
      rw [filter_map_none _ Call.Finalize _ (fun _ => rfl), commCalls_filter_none _ _ _ rfl]
      rfl
    · simp only [List.filter_append]
      rw [filter_map_none _ Call.Finalize _ (fun _ => rfl), commCalls_filter_none _ _ _ rfl]
      rfl

/-- C3: the trace of every terminating `Run` is the concatenation, in this order, of the
`ReadMesh` calls on the whole collection, the `InitFields` calls, the `InitBoundaries` calls, the
`InitFromRestart` calls, the initial `Post` calls, the calls of the solve loop (only finished
queries, `Solve` and `Post`), and the final `Post` calls: no call of a phase is made before the
preceding phase has been completed on every instance. -/
theorem C3_phases_in_order_with_barriers (env : Env ι σ) (fw : NumSimFramework ι) (w : σ)
    (fuel : Nat) (m1 : Machine ι σ)
    (hrun : NumSimFramework.Run env fuel ⟨fw, w, []⟩ = .returned m1) :
    ∃ loop : List (Call ι),
      (∀ c ∈ loop, c.isLoopCall = true) ∧ SolveThenPost loop ∧
      m1.trace =
        fw.simulations_.map Call.ReadMesh ++
        (fw.simulations_.map (fun a => Call.InitFields a 0) ++
          fw.simulations_.map (fun a => Call.InitFields a 1)) ++
        (fw.simulations_.map (fun a => Call.InitBoundaries a 0) ++
          fw.simulations_.map (fun a => Call.InitBoundaries a 1)) ++
        fw.simulations_.map Call.InitFromRestart ++
        fw.simulations_.map Call.Post ++
        loop ++
        fw.simulations_.map Call.Post := by
  obtain ⟨t, ⟨hall, hsp⟩, h⟩ := Run_shape env fuel ⟨fw, w, []⟩
  rcases h with ⟨m2, hr, -, htr⟩ | ⟨m2, hr, -, -⟩
  · rw [hr] at hrun
    cases hrun
    refine ⟨t, hall, hsp, ?_⟩
    rw [htr]
    simp [setupCalls, initFieldsCalls, initBoundariesCalls]
  · rw [hr] at hrun; cases hrun

theorem count_of_filter_eq_map [DecidableEq ι] (p : Call ι → Bool) (c : ι → Call ι)
    (hc : Function.Injective c) (hp : ∀ a, p (c a) = true) (t : List (Call ι)) (sims : List ι)
    (h : t.filter p = sims.map c) (a : ι) : t.count (c a) = sims.count a := by
  rw [← List.count_filter (hp a), h, List.count_map_of_injective sims c hc]

/-- C2: in every terminating execution of `Run` followed by `Finalize`, the `ReadMesh` calls are
exactly one per member of the collection, in collection order, and so are the `InitFromRestart`
calls and the `Finalize` calls; the `Post` calls just before the solve loop are exactly one per
member in collection order, and so are the `Post` calls just after it; every instance receives
`ReadMesh`, `InitFromRestart` and `Finalize` as many times as it occurs in the collection, that
is once. -/
theorem C2_single_pass_phases_once_in_order [DecidableEq ι] (env : Env ι σ)
    (fw : NumSimFramework ι) (w : σ) (fuel : Nat) (m1 : Machine ι σ)
    (hrun : NumSimFramework.Run env fuel ⟨fw, w, []⟩ = .returned m1) :
    (NumSimFramework.Finalize env m1).trace.filter Call.isReadMesh =
        fw.simulations_.map Call.ReadMesh ∧
    (NumSimFramework.Finalize env m1).trace.filter Call.isInitFromRestart =
        fw.simulations_.map Call.InitFromRestart ∧
    (NumSimFramework.Finalize env m1).trace.filter Call.isFinalize =
        fw.simulations_.map Call.Finalize ∧
    (∃ before loop after : List (Call ι),
      (NumSimFramework.Finalize env m1).trace =
        before ++ fw.simulations_.map Call.Post ++ loop ++ fw.simulations_.map Call.Post ++
          after ∧
      before.filter Call.isPost = [] ∧ before.filter Call.isLoopCall = [] ∧
      (∀ c ∈ loop, c.isLoopCall = true) ∧
      after.filter Call.isPost = [] ∧ after.filter Call.isLoopCall = []) ∧
    (∀ a, (NumSimFramework.Finalize env m1).trace.count (Call.ReadMesh a) =
      fw.simulations_.count a) ∧
    (∀ a, (NumSimFramework.Finalize env m1).trace.count (Call.InitFromRestart a) =
      fw.simulations_.count a) ∧
    (∀ a, (NumSimFramework.Finalize env m1).trace.count (Call.Finalize a) =
      fw.simulations_.count a) := by
  obtain ⟨hR, hI, hF, hPost⟩ := Run_then_Finalize_phases env fw w fuel m1 hrun
  refine ⟨hR, hI, hF, hPost, ?_, ?_, ?_⟩
  · exact count_of_filter_eq_map _ Call.ReadMesh (fun _ _ h => Call.ReadMesh.inj h)
      (fun _ => rfl) _ _ hR
  · exact count_of_filter_eq_map _ Call.InitFromRestart
      (fun _ _ h => Call.InitFromRestart.inj h) (fun _ => rfl) _ _ hI
  · exact count_of_filter_eq_map _ Call.Finalize (fun _ _ h => Call.Finalize.inj h)
      (fun _ => rfl) _ _ hF

/-- Witness of C2: two base-class instances "A" and "B" and a Process Group. -/
theorem C2_single_pass_phases_once_in_order_witness :
    NumSimFramework.Run baseEnv 1 ⟨{ comm_ := some {}, simulations_ := ["A", "B"] }, (), []⟩ =
        .returned ⟨{ comm_ := some {}, simulations_ := ["A", "B"] }, (),
          [.ReadMesh "A", .ReadMesh "B", .InitFields "A" 0, .InitFields "B" 0,
            .InitFields "A" 1, .InitFields "B" 1, .InitBoundaries "A" 0, .InitBoundaries "B" 0,
            .InitBoundaries "A" 1, .InitBoundaries "B" 1, .InitFromRestart "A",
            .InitFromRestart "B", .Post "A", .Post "B", .IsFinished "A", .IsFinished "B",
            .Post "A", .Post "B"]⟩ ∧
    (NumSimFramework.Finalize baseEnv ⟨{ comm_ := some {}, simulations_ := ["A", "B"] }, (),
          [.ReadMesh "A", .ReadMesh "B", .InitFields "A" 0, .InitFields "B" 0,
            .InitFields "A" 1, .InitFields "B" 1, .InitBoundaries "A" 0, .InitBoundaries "B" 0,
            .InitBoundaries "A" 1, .InitBoundaries "B" 1, .InitFromRestart "A",
            .InitFromRestart "B", .Post "A", .Post "B", .IsFinished "A", .IsFinished "B",
            .Post "A", .Post "B"]⟩).trace.filter Call.isFinalize =
      [.Finalize "A", .Finalize "B"] :=
  ⟨rfl, (C2_single_pass_phases_once_in_order baseEnv
    { comm_ := some {}, simulations_ := ["A", "B"] } () 1 _ rfl).2.2.1⟩

/-- Witness of C3: two base-class instances "A" and "B". -/
theorem C3_phases_in_order_with_barriers_witness :
    NumSimFramework.Run baseEnv 1 ⟨{ simulations_ := ["A", "B"] }, (), []⟩ =
        .returned ⟨{ simulations_ := ["A", "B"] }, (),
          [.ReadMesh "A", .ReadMesh "B", .InitFields "A" 0, .InitFields "B" 0,
            .InitFields "A" 1, .InitFields "B" 1, .InitBoundaries "A" 0, .InitBoundaries "B" 0,
            .InitBoundaries "A" 1, .InitBoundaries "B" 1, .InitFromRestart "A",
            .InitFromRestart "B", .Post "A", .Post "B", .IsFinished "A", .IsFinished "B",
            .Post "A", .Post "B"]⟩ ∧
    ∃ loop : List (Call String),
      (∀ c ∈ loop, c.isLoopCall = true) ∧ SolveThenPost loop ∧
      [Call.ReadMesh "A", .ReadMesh "B", .InitFields "A" 0, .InitFields "B" 0,
            .InitFields "A" 1, .InitFields "B" 1, .InitBoundaries "A" 0, .InitBoundaries "B" 0,
            .InitBoundaries "A" 1, .InitBoundaries "B" 1, .InitFromRestart "A",
            .InitFromRestart "B", .Post "A", .Post "B", .IsFinished "A", .IsFinished "B",
            .Post "A", .Post "B"] =
        [Call.ReadMesh "A", .ReadMesh "B"] ++
        ([Call.InitFields "A" 0, .InitFields "B" 0] ++ [Call.InitFields "A" 1, .InitFields "B" 1]) ++
        ([Call.InitBoundaries "A" 0, .InitBoundaries "B" 0] ++
          [Call.InitBoundaries "A" 1, .InitBoundaries "B" 1]) ++
        [Call.InitFromRestart "A", .InitFromRestart "B"] ++
        [Call.Post "A", .Post "B"] ++ loop ++ [Call.Post "A", .Post "B"] :=
  ⟨rfl, C3_phases_in_order_with_barriers baseEnv { simulations_ := ["A", "B"] } () 1 _ rfl⟩

/-! ### C4 -/

theorem SolveThenPost_of_no_solve (t : List (Call ι)) (h : ∀ c ∈ t, c.isSolve = false) :
    SolveThenPost t := by
  intro pre a post ht
  have := h (Call.Solve a) (by rw [ht]; simp)
  simp [Call.isSolve] at this

theorem setupCalls_no_solve (sims : List ι) : ∀ c ∈ setupCalls sims, c.isSolve = false := by
  intro c hc
  simp only [setupCalls, initFieldsCalls, initBoundariesCalls, List.mem_append, List.mem_map] at hc
  rcases hc with ((((⟨a, -, rfl⟩ | ⟨a, -, rfl⟩ | ⟨a, -, rfl⟩) | ⟨a, -, rfl⟩ | ⟨a, -, rfl⟩) |
    ⟨a, -, rfl⟩) | ⟨a, -, rfl⟩) <;> rfl

/-- C4: one pass of the solve loop makes, for each instance in collection order, the finished
query and then `Solve` immediately followed by `Post` on that instance when the query returned
false, nothing more when it returned true (`passCalls`); in these calls, and in the whole trace
of `Run` after any number of passes, every `Solve` on an instance is immediately followed by a
`Post` on the same instance. -/
theorem C4_solve_post_adjacent_per_instance (env : Env ι σ) (m : Machine ι σ) (fuel : Nat) :
    (Run.solvePass env m).2.trace = m.trace ++ passCalls env m.self.simulations_ m.world ∧
    SolveThenPost (passCalls env m.self.simulations_ m.world) ∧
    SolveThenPost (NumSimFramework.Run env fuel ⟨m.self, m.world, []⟩).machine.trace := by
  refine ⟨by rw [solvePass_eq], passCalls_SolveThenPost env _ _, ?_⟩
  obtain ⟨t, ⟨-, hsp⟩, h⟩ := Run_shape env fuel ⟨m.self, m.world, []⟩
  have hsetup := SolveThenPost_of_no_solve _ (setupCalls_no_solve m.self.simulations_)
  rcases h with ⟨m1, hr, -, htr⟩ | ⟨m1, hr, -, htr⟩
  · rw [hr]
    simp only [Outcome.machine, htr, List.nil_append]
    refine SolveThenPost_append (SolveThenPost_append hsetup hsp)
      (SolveThenPost_of_no_solve _ ?_)
    intro c hc
    obtain ⟨a, -, rfl⟩ := List.mem_map.1 hc
    rfl
  · rw [hr]
    simp only [Outcome.machine, htr, List.nil_append]
    exact SolveThenPost_append hsetup hsp

/-! ### C6 -/

theorem passAllFinished_false (env : Env ι σ) (a : ι)
    (hnever : ∀ w, (env.sim a).IsFinished w = false) (sims : List ι) (ha : a ∈ sims) (w : σ) :
    passAllFinished env sims w = false := by
  induction sims generalizing w with
  | nil => simp at ha
  | cons b rest ih =>
    unfold passAllFinished
    split
    · rcases List.mem_cons.1 ha with h | h
      · subst h
        simp_all
      · exact ih h w
    · rfl

theorem passCalls_never_finished (env : Env ι σ) (a : ι)
    (hnever : ∀ w, (env.sim a).IsFinished w = false) (sims : List ι) (ha : a ∈ sims) (w : σ) :
    ∃ pre post, passCalls env sims w =
      pre ++ [Call.IsFinished a, Call.Solve a, Call.Post a] ++ post := by
  induction sims generalizing w with
  | nil => simp at ha
  | cons b rest ih =>
    rcases List.mem_cons.1 ha with h | h
    · subst h
      refine ⟨[], passCalls env rest ((env.sim a).Post ((env.sim a).Solve w)), ?_⟩
      simp [passCalls, hnever]
    · unfold passCalls
      split
      · obtain ⟨pre, post, hp⟩ := ih h w
        exact ⟨Call.IsFinished b :: pre, post, by rw [hp]; simp⟩
      · obtain ⟨pre, post, hp⟩ := ih h ((env.sim b).Post ((env.sim b).Solve w))
        exact ⟨Call.IsFinished b :: Call.Solve b :: Call.Post b :: pre, post, by rw [hp]; simp⟩

theorem solveLoop_never_exits [DecidableEq ι] (env : Env ι σ) (a : ι)
    (hnever : ∀ w, (env.sim a).IsFinished w = false) (fuel : Nat) (m : Machine ι σ)
    (ha : a ∈ m.self.simulations_) :
    ∃ m1, Run.solveLoop env fuel m = .running m1 ∧
      m.trace.count (Call.Solve a) + fuel ≤ m1.trace.count (Call.Solve a) ∧
      m.trace.count (Call.Post a) + fuel ≤ m1.trace.count (Call.Post a) := by
  induction fuel generalizing m with
  | zero => exact ⟨m, rfl, by simp, by simp⟩
  | succ n ih =>
    simp only [Run.solveLoop, solvePass_eq, passAllFinished_false env a hnever _ ha]
    obtain ⟨m1, hm1, hS, hP⟩ := ih
      { self := m.self, world := passWorld env m.self.simulations_ m.world,
        trace := m.trace ++ passCalls env m.self.simulations_ m.world } ha
    obtain ⟨pre, post, hp⟩ := passCalls_never_finished env a hnever _ ha m.world
    refine ⟨m1, by simpa using hm1, ?_, ?_⟩
    · simp only [hp, List.count_append, List.count_cons, List.count_nil] at hS
      simp at hS
      omega
    · simp only [hp, List.count_append, List.count_cons, List.count_nil] at hP
      simp at hP
      omega

/-- C6: when the collection contains an instance whose `IsFinished` always returns false, `Run`
has not returned after any number `fuel` of passes of the solve loop (so the final `Post` pass is
never reached), that instance has received at least `fuel` `Solve` and `fuel` `Post` calls by
then, and every single pass ends with `allFinished` false and contains the finished query, the
`Solve` and the `Post` on that instance next to each other. -/
theorem C6_never_finished_loops_forever [DecidableEq ι] (env : Env ι σ) (m : Machine ι σ)
    (a : ι) (ha : a ∈ m.self.simulations_)
    (hnever : ∀ w, (env.sim a).IsFinished w = false) :
    (∀ fuel, ∃ m1, NumSimFramework.Run env fuel m = .running m1 ∧
      fuel ≤ m1.trace.count (Call.Solve a) ∧ fuel ≤ m1.trace.count (Call.Post a)) ∧
    (∀ fuel, ∃ m1, Run.solveLoop env fuel m = .running m1) ∧
    (Run.solvePass env m).1 = false ∧
    ∃ pre post, (Run.solvePass env m).2.trace =
      m.trace ++ pre ++ [Call.IsFinished a, Call.Solve a, Call.Post a] ++ post := by
  refine ⟨?_, ?_, ?_, ?_⟩
  · intro fuel
    obtain ⟨m1, hm1, hS, hP⟩ := solveLoop_never_exits env a hnever fuel (Run.setup env m)
      (by rw [setup_self]; exact ha)
    refine ⟨m1, ?_, by omega, by omega⟩
    simp [NumSimFramework.Run, hm1]
  · intro fuel
    obtain ⟨m1, hm1, -, -⟩ := solveLoop_never_exits env a hnever fuel m ha
    exact ⟨m1, hm1⟩
  · rw [solvePass_eq]
    exact passAllFinished_false env a hnever _ ha m.world
  · obtain ⟨pre, post, hp⟩ := passCalls_never_finished env a hnever _ ha m.world
    exact ⟨pre, post, by rw [solvePass_eq]; simp [hp]⟩

/-- Witness of C6: the collection ["A", "B"] of instances that never report finished. -/
theorem C6_never_finished_loops_forever_witness :
    "A" ∈ (["A", "B"] : List String) ∧
    (∀ w, (endlessEnv.sim "A").IsFinished w = false) ∧
    ∀ fuel, ∃ m1, NumSimFramework.Run endlessEnv fuel
        ⟨{ simulations_ := ["A", "B"] }, (), []⟩ = .running m1 ∧
      fuel ≤ m1.trace.count (Call.Solve "A") ∧ fuel ≤ m1.trace.count (Call.Post "A") :=
  ⟨by decide, fun _ => rfl,
    (C6_never_finished_loops_forever endlessEnv ⟨{ simulations_ := ["A", "B"] }, (), []⟩ "A"
      (by decide) (fun _ => rfl)).1⟩

/-! ### C7, C8 -/

/-- C7, the code at the failing input: a framework obtained by `Create` and initialized with
`Initialize` on a configuration naming two simulations holds no Process Group, and `Finalize` on
it makes no `NumSimComm::Finalize` call (the claim says exactly one). `Finalize` itself does what
the claim says once `comm_` is set: on a framework holding a Process Group and the instances
"A" and "B" it calls `Finalize` on "A", on "B", then `NumSimComm::Finalize` once. -/
theorem C7_no_teardown_after_Initialize :
    (NumSimFramework.Finalize baseEnv
      (NumSimFramework.Initialize demoConfig
        (NumSimFramework.Create () : Machine String Unit))).trace.count Call.CommFinalize = 0 ∧
    (NumSimFramework.Finalize baseEnv
      (NumSimFramework.Initialize demoConfig
        (NumSimFramework.Create () : Machine String Unit))).trace.count Call.CommFinalize ≠ 1 ∧
    (NumSimFramework.Initialize demoConfig
      (NumSimFramework.Create () : Machine String Unit)).self.comm_ = none ∧
    (NumSimFramework.Finalize baseEnv
      ⟨{ comm_ := some {}, simulations_ := ["A", "B"] }, (), []⟩).trace =
      [Call.Finalize "A", Call.Finalize "B", Call.CommFinalize] := by
  decide

/-- The calls of `Finalize` on a framework that went through `Initialize`: `Finalize` once on
every instance in collection order, then `NumSimComm::Finalize` once when `comm_` is not
null. -/
theorem Finalize_after_Initialize_trace (env : Env ι σ)
    (numSimSolverJson : JsonObject) (m : Machine ι σ) :
    (NumSimFramework.Finalize env (NumSimFramework.Initialize numSimSolverJson m)).trace =
      m.trace ++ m.self.simulations_.map Call.Finalize ++
        (if m.self.comm_.isSome then [Call.CommFinalize] else []) := by
  rw [Finalize_trace]
  unfold NumSimFramework.Initialize commCalls
  cases m.self.comm_ <;> rfl

/-- C8, the code at a configuration naming two simulations: after `Initialize` on a freshly
created framework, `comm_` is still null and `simulations_` is still empty; for every
configuration and every state, `Initialize` changes nothing. -/
theorem C8_Initialize_constructs_nothing :
    (NumSimFramework.Initialize demoConfig
      (NumSimFramework.Create () : Machine String Unit)).self.comm_ = none ∧
    (NumSimFramework.Initialize demoConfig
      (NumSimFramework.Create () : Machine String Unit)).self.simulations_ = [] ∧
    ∀ (numSimSolverJson : JsonObject) (m : Machine String Unit),
      NumSimFramework.Initialize numSimSolverJson m = m :=
  ⟨rfl, rfl, fun _ _ => rfl⟩

/-! ### C10 -/

/-- C10: in every framework state `PrintInfo` leaves the framework object (the collection and
the Process Group reference) unchanged; after writing its header line it calls `PrintInfo` on
the Process Group when there is one, then `PrintInfo` on every instance in collection order;
none of the calls it makes is a lifecycle operation. -/
theorem C10_PrintInfo_is_read_only (env : Env ι σ) (m : Machine ι σ) :
    (NumSimFramework.PrintInfo env m).self = m.self ∧
    (NumSimFramework.PrintInfo env m).trace =
      m.trace ++ (Call.Cout "NumSimSolver Information:" ::
        (commCalls Call.CommPrintInfo m.self ++ m.self.simulations_.map Call.PrintInfo)) ∧
    ∀ c ∈ (Call.Cout "NumSimSolver Information:" ::
        (commCalls Call.CommPrintInfo m.self ++ m.self.simulations_.map Call.PrintInfo)),
      c.isLifecycle = false := by
  refine ⟨?_, ?_, ?_⟩
  · unfold NumSimFramework.PrintInfo
    simp only [forEach_invoke_self, invoke_self]
    cases h : m.self.comm_ <;> simp [NumSimComm.PrintInfo]
  · unfold NumSimFramework.PrintInfo commCalls
    simp only [forEach_invoke_trace, invoke_self]
    cases h : m.self.comm_ <;> simp [NumSimComm.PrintInfo]
  · intro c hc
    simp only [List.mem_cons, List.mem_append, List.mem_map, commCalls] at hc
    rcases hc with rfl | hc | ⟨a, -, rfl⟩
    · rfl
    · cases h : m.self.comm_ <;> simp [h] at hc
      subst hc
      rfl
    · rfl

/-! ### C5 -/

theorem scriptedPass_congr (need need2 : ι → Nat) (p q : Nat) (l : List ι)
    (h : ∀ b ∈ l, (need b ≤ p ↔ need2 b ≤ q)) :
    scriptedPass need p l = scriptedPass need2 q l := by
  induction l with
  | nil => rfl
  | cons a rest ih =>
    have ha := h a (List.mem_cons_self a rest)
    have hrest := ih (fun b hb => h b (List.mem_cons_of_mem a hb))
    unfold scriptedPass
    by_cases hp : need a ≤ p
    · rw [if_pos hp, if_pos (ha.1 hp), hrest]
    · rw [if_neg hp, if_neg (fun hq => hp (ha.2 hq)), hrest]

theorem scriptedLoop_shift (need need2 : ι → Nat) (sims : List ι)
    (h : ∀ b ∈ sims, need2 b = need b - 1) (p n : Nat) :
    scriptedLoop need2 sims p n = scriptedLoop need sims (p + 1) n := by
  induction n generalizing p with
  | zero => rfl
  | succ k ih =>
    unfold scriptedLoop
    rw [ih (p + 1), scriptedPass_congr need2 need p (p + 1) sims
      (fun b hb => by rw [h b hb]; omega)]

theorem solveBound_eq_zero (need : ι → Nat) (l : List ι) :
    solveBound need l = 0 ↔ ∀ a ∈ l, need a = 0 := by
  induction l with
  | nil => simp [solveBound]
  | cons a rest ih =>
    simp only [solveBound, List.mem_cons, forall_eq_or_imp]
    rw [← ih]
    omega

theorem solveBound_pred (need need2 : ι → Nat) (l : List ι)
    (h : ∀ b ∈ l, need2 b = need b - 1) : solveBound need2 l = solveBound need l - 1 := by
  induction l with
  | nil => rfl
  | cons a rest ih =>
    have ha := h a (List.mem_cons_self a rest)
    have hrest := ih (fun b hb => h b (List.mem_cons_of_mem a hb))
    simp only [solveBound]
    omega

/-- What one pass does to scripted instances. -/
theorem pass_scripted (env : Env ι σ) (sims : List ι) (remaining : ι → σ → Nat)
    (hS : Scripted env sims remaining) (l : List ι) (hl : ∀ a ∈ l, a ∈ sims) (hnd : l.Nodup)
    (w : σ) :
    passCalls env l w = scriptedPass (fun a => remaining a w) 0 l ∧
    (passAllFinished env l w = true ↔ ∀ a ∈ l, remaining a w = 0) ∧
    (∀ b ∈ sims, b ∈ l → remaining b (passWorld env l w) = remaining b w - 1) ∧
    (∀ b ∈ sims, b ∉ l → remaining b (passWorld env l w) = remaining b w) := by
  induction l generalizing w with
  | nil => simp [passCalls, scriptedPass, passAllFinished, passWorld]
  | cons a rest ih =>
    have ha : a ∈ sims := hl a (List.mem_cons_self a rest)
    have hrest : ∀ b ∈ rest, b ∈ sims := fun b hb => hl b (List.mem_cons_of_mem a hb)
    obtain ⟨hnot, hnd2⟩ := List.nodup_cons.1 hnd
    by_cases hfin : (env.sim a).IsFinished w = true
    · have hzero : remaining a w = 0 := (hS.finished a ha w).1 hfin
      obtain ⟨h1, h2, h3, h4⟩ := ih hrest hnd2 w
      refine ⟨?_, ?_, ?_, ?_⟩
      · simp [passCalls, scriptedPass, hfin, hzero, h1]
      · simp [passAllFinished, hfin, hzero, h2]
      · intro b hb hmem
        simp only [passWorld, hfin, if_true]
        rcases List.mem_cons.1 hmem with rfl | hmem
        · rw [h4 b hb hnot, hzero]
        · exact h3 b hb hmem
      · intro b hb hmem
        simp only [passWorld, hfin, if_true]
        exact h4 b hb (fun hin => hmem (List.mem_cons_of_mem a hin))
    · have hpos : remaining a w ≠ 0 := fun hz => hfin ((hS.finished a ha w).2 hz)
      have hself : remaining a ((env.sim a).Post ((env.sim a).Solve w)) = remaining a w - 1 := by
        rw [hS.post a ha a ha, hS.solve_self a ha]
      have hother : ∀ b ∈ sims, b ≠ a →
          remaining b ((env.sim a).Post ((env.sim a).Solve w)) = remaining b w := by
        intro b hb hne
        rw [hS.post a ha b hb, hS.solve_other a ha b hb hne]
      obtain ⟨h1, h2, h3, h4⟩ := ih hrest hnd2 ((env.sim a).Post ((env.sim a).Solve w))
      have hne : ∀ b ∈ rest, b ≠ a := fun b hb hba => hnot (hba ▸ hb)
      refine ⟨?_, ?_, ?_, ?_⟩
      · simp only [passCalls, hfin, scriptedPass, Bool.false_eq_true, if_false]
        rw [if_neg (by omega), h1]
        rw [scriptedPass_congr _ (fun a => remaining a w) 0 0 rest
          (fun b hb => by rw [hother b (hrest b hb) (hne b hb)])]
      · simp only [passAllFinished, hfin, Bool.false_eq_true, if_false, false_iff]
        intro hall
        exact hpos (hall a (List.mem_cons_self a rest))
      · intro b hb hmem
        simp only [passWorld, hfin, Bool.false_eq_true, if_false]
        rcases List.mem_cons.1 hmem with rfl | hmem
        · rw [h4 b hb hnot, hself]
        · rw [h3 b hb hmem, hother b hb (hne b hmem)]
      · intro b hb hmem
        simp only [passWorld, hfin, Bool.false_eq_true, if_false]
        rw [h4 b hb (fun hin => hmem (List.mem_cons_of_mem a hin)),
          hother b hb (fun hba => hmem (hba ▸ List.mem_cons_self a rest))]

/-- The solve loop on scripted instances: `K + 1` passes, `K` being the bound of the script. -/
theorem solveLoop_scripted (env : Env ι σ) (sims : List ι) (remaining : ι → σ → Nat)
    (hS : Scripted env sims remaining) (hnd : sims.Nodup) (K : Nat) (m : Machine ι σ)
    (hm : m.self.simulations_ = sims)
    (hK : solveBound (fun a => remaining a m.world) sims = K) :
    (∃ m1, Run.solveLoop env (K + 1) m = .returned m1 ∧ m1.self = m.self ∧
      m1.trace = m.trace ++ scriptedLoop (fun a => remaining a m.world) sims 0 (K + 1)) ∧
    ∀ n, n ≤ K → ∃ m2, Run.solveLoop env n m = .running m2 := by
  induction K generalizing m with
  | zero =>
    obtain ⟨h1, h2, -, -⟩ := pass_scripted env sims remaining hS sims (fun _ h => h) hnd m.world
    have hfin : passAllFinished env sims m.world = true :=
      h2.2 ((solveBound_eq_zero _ sims).1 hK)
    refine ⟨⟨⟨m.self, passWorld env sims m.world, m.trace ++ passCalls env sims m.world⟩,
      by simp only [Run.solveLoop, solvePass_eq, hm, hfin]; rfl, rfl, ?_⟩, ?_⟩
    · simp [scriptedLoop, h1]
    · intro n hn
      have : n = 0 := by omega
      subst this
      exact ⟨m, rfl⟩
  | succ k ih =>
    obtain ⟨h1, h2, h3, -⟩ := pass_scripted env sims remaining hS sims (fun _ h => h) hnd m.world
    have hfin : passAllFinished env sims m.world = false := by
      cases hf : passAllFinished env sims m.world with
      | false => rfl
      | true =>
        have := (solveBound_eq_zero _ sims).2 (h2.1 hf)
        omega
    have hdec : ∀ b ∈ sims, remaining b (passWorld env sims m.world) = remaining b m.world - 1 :=
      fun b hb => h3 b hb hb
    have hK2 : solveBound (fun a => remaining a (passWorld env sims m.world)) sims = k := by
      rw [solveBound_pred (fun a => remaining a m.world) _ sims hdec, hK]
      rfl
    obtain ⟨⟨m1, hm1, hself, htr⟩, hrun⟩ := ih
      { self := m.self, world := passWorld env sims m.world,
        trace := m.trace ++ passCalls env sims m.world } hm hK2
    have hstep : ∀ n, Run.solveLoop env (n + 1) m = Run.solveLoop env n
        { self := m.self, world := passWorld env sims m.world,
          trace := m.trace ++ passCalls env sims m.world } := by
      intro n
      simp only [Run.solveLoop, solvePass_eq, hm, hfin]
      rfl
    refine ⟨⟨m1, by rw [hstep, hm1], hself, ?_⟩, ?_⟩
    · rw [htr]
      simp only [List.append_assoc]
      rw [scriptedLoop_shift (fun a => remaining a m.world) _ sims hdec, h1]
      rfl
    · intro n hn
      cases n with
      | zero => exact ⟨m, rfl⟩
      | succ n =>
        rw [hstep]
        exact hrun n (by omega)

theorem scriptedEnv_scripted (sims : List Nat) :
    Scripted scriptedEnv sims (fun a w => w a) where
  finished := by
    intro a _ w
    simp [scriptedEnv]
  solve_self := by
    intro a _ w
    simp [scriptedEnv]
  solve_other := by
    intro a _ b _ hne w
    simp [scriptedEnv, Function.update, hne]
  post := by
    intro a _ b _ w
    rfl

/-- C5, counterexample: two scripted instances, 0 needing one `Solve` and 1 needing two, so that
`K = 2`; after 2 passes the loop has not exited, it exits on the third pass. -/
theorem C5_loop_still_running_after_K_passes :
    Scripted scriptedEnv [0, 1] (fun a w => w a) ∧
    solveBound (fun a => (fun b : Nat => b + 1) a) [0, 1] = 2 ∧
    (Run.solveLoop scriptedEnv 2
      ⟨{ simulations_ := [0, 1] }, fun b => b + 1, []⟩).isReturned = false ∧
    (Run.solveLoop scriptedEnv 3
      ⟨{ simulations_ := [0, 1] }, fun b => b + 1, []⟩).isReturned = true ∧
    (Run.solveLoop scriptedEnv 3
      ⟨{ simulations_ := [0, 1] }, fun b => b + 1, []⟩).machine.trace =
      [.IsFinished 0, .Solve 0, .Post 0, .IsFinished 1, .Solve 1, .Post 1,
       .IsFinished 0, .IsFinished 1, .Solve 1, .Post 1,
       .IsFinished 0, .IsFinished 1] :=
  ⟨scriptedEnv_scripted _, by decide, by decide, by decide, by decide⟩

/-- C5, amended: when the finished predicates of a collection of distinct instances are scripted
and `K` is the least number of solves after which every instance is finished, the solve loop
terminates and performs exactly `K + 1` passes (it has exited after `K + 1` passes and is still
running after any `n ≤ K`); its calls are those of the scripted passes 0 to `K`, in which an
instance is queried and, while it is not yet finished, receives `Solve` immediately followed by
`Post`; and `Run` returns. -/
theorem C5_scripted_loop_terminates_after_K_plus_one_passes (env : Env ι σ)
    (remaining : ι → σ → Nat) (m : Machine ι σ) (hnd : m.self.simulations_.Nodup)
    (hS : Scripted env m.self.simulations_ remaining) :
    (∃ m1, Run.solveLoop env
        (solveBound (fun a => remaining a m.world) m.self.simulations_ + 1) m = .returned m1 ∧
      m1.trace = m.trace ++ scriptedLoop (fun a => remaining a m.world) m.self.simulations_ 0
        (solveBound (fun a => remaining a m.world) m.self.simulations_ + 1)) ∧
    (∀ n, n ≤ solveBound (fun a => remaining a m.world) m.self.simulations_ →
      ∃ m2, Run.solveLoop env n m = .running m2) ∧
    (∃ m3, NumSimFramework.Run env
        (solveBound (fun a => remaining a (Run.setup env m).world) m.self.simulations_ + 1) m =
          .returned m3) := by
  obtain ⟨⟨m1, hm1, -, htr⟩, hrun⟩ :=
    solveLoop_scripted env m.self.simulations_ remaining hS hnd _ m rfl rfl
  refine ⟨⟨m1, hm1, htr⟩, hrun, ?_⟩
  obtain ⟨⟨m3, hm3, -, -⟩, -⟩ :=
    solveLoop_scripted env m.self.simulations_ remaining hS hnd _ (Run.setup env m)
      (by rw [setup_self]) rfl
  exact ⟨Run.finalPost env m3, by simp [NumSimFramework.Run, hm3]⟩

/-- Witness of C5: the scripted instances 0 and 1 needing one and two solves. -/
theorem C5_scripted_loop_terminates_after_K_plus_one_passes_witness :
    ([0, 1] : List Nat).Nodup ∧ Scripted scriptedEnv [0, 1] (fun a w => w a) ∧
    ∀ n, n ≤ solveBound (fun a => (fun b : Nat => b + 1) a) [0, 1] →
      ∃ m2, Run.solveLoop scriptedEnv n ⟨{ simulations_ := [0, 1] }, fun b => b + 1, []⟩ =
        .running m2 :=
  ⟨by decide, scriptedEnv_scripted _,
    (C5_scripted_loop_terminates_after_K_plus_one_passes scriptedEnv (fun a w => w a)
      ⟨{ simulations_ := [0, 1] }, fun b => b + 1, []⟩ (by decide) (scriptedEnv_scripted _)).2.1⟩

/-! ### C9 -/

section Failure

variable {ε α β : Type}

theorem Clean_nil : Throwing.Clean ([] : List (Call ι × Option ε)) := by
  intro x hx
  simp at hx

theorem Clean_append {t1 t2 : List (Call ι × Option ε)} (h1 : Throwing.Clean t1)
    (h2 : Throwing.Clean t2) : Throwing.Clean (t1 ++ t2) := by
  intro x hx
  rcases List.mem_append.1 hx with h | h
  · exact h1 x h
  · exact h2 x h

theorem Clean_single (c : Call ι) (hc : c.isLifecycle = true) :
    Throwing.Clean [(c, (none : Option ε))] := by
  intro x hx
  rw [List.mem_singleton.1 hx]
  exact ⟨rfl, hc⟩

theorem FailedLast_single (c : Call ι) (e : ε) (hc : c.isLifecycle = true) :
    Throwing.FailedLast e [(c, some e)] :=
  ⟨[], c, rfl, Clean_nil, hc⟩

theorem FailedLast_append {t1 t2 : List (Call ι × Option ε)} {e : ε} (h1 : Throwing.Clean t1)
    (h2 : Throwing.FailedLast e t2) : Throwing.FailedLast e (t1 ++ t2) := by
  obtain ⟨pre, c, ht, hpre, hc⟩ := h2
  exact ⟨t1 ++ pre, c, by rw [ht, List.append_assoc], Clean_append h1 hpre, hc⟩

theorem Sound_returned (proj : α → Throwing.Machine ι σ ε) (a : α) :
    Throwing.Sound proj (proj a) (.returned a) :=
  ⟨rfl, [], by simp, Clean_nil⟩

/-- Code started where a clean run stopped is sound with respect to the start of that run. -/
theorem Sound_extend {proj : β → Throwing.Machine ι σ ε} {m0 m1 : Throwing.Machine ι σ ε}
    {t : List (Call ι × Option ε)} {r : Throwing.Outcome ι σ ε β}
    (hself : m1.self = m0.self) (htr : m1.trace = m0.trace ++ t) (hclean : Throwing.Clean t)
    (hr : Throwing.Sound proj m1 r) : Throwing.Sound proj m0 r := by
  cases r with
  | returned b =>
    obtain ⟨hs, t2, ht2, hc2⟩ := hr
    exact ⟨hs.trans hself, t ++ t2, by rw [ht2, htr, List.append_assoc], Clean_append hclean hc2⟩
  | running m =>
    obtain ⟨hs, t2, ht2, hc2⟩ := hr
    exact ⟨hs.trans hself, t ++ t2, by rw [ht2, htr, List.append_assoc], Clean_append hclean hc2⟩
  | thrown e m =>
    obtain ⟨hs, t2, ht2, hc2⟩ := hr
    exact ⟨hs.trans hself, t ++ t2, by rw [ht2, htr, List.append_assoc],
      FailedLast_append hclean hc2⟩

theorem Sound_bind {proj : α → Throwing.Machine ι σ ε} {proj2 : β → Throwing.Machine ι σ ε}
    {m0 : Throwing.Machine ι σ ε} {r : Throwing.Outcome ι σ ε α}
    {k : α → Throwing.Outcome ι σ ε β} (hr : Throwing.Sound proj m0 r)
    (hk : ∀ a, Throwing.Sound proj2 (proj a) (k a)) : Throwing.Sound proj2 m0 (r.bind k) := by
  cases r with
  | returned a =>
    obtain ⟨hs, t, ht, hc⟩ := hr
    exact Sound_extend hs ht hc (hk a)
  | running m => exact hr
  | thrown e m => exact hr

theorem Sound_invoke (c : Call ι) (hc : c.isLifecycle = true) (f : σ → Except ε σ)
    (m : Throwing.Machine ι σ ε) : Throwing.Sound id m (Throwing.invoke c f m) := by
  unfold Throwing.invoke
  cases f m.world with
  | ok w => exact ⟨rfl, [(c, none)], rfl, Clean_single c hc⟩
  | error e => exact ⟨rfl, [(c, some e)], rfl, FailedLast_single c e hc⟩

theorem Sound_foldl {γ : Type} (proj : α → Throwing.Machine ι σ ε)
    (step : α → γ → Throwing.Outcome ι σ ε α)
    (hstep : ∀ a x, Throwing.Sound proj (proj a) (step a x)) (l : List γ)
    (m0 : Throwing.Machine ι σ ε) (r : Throwing.Outcome ι σ ε α)
    (hr : Throwing.Sound proj m0 r) :
    Throwing.Sound proj m0 (l.foldl (fun acc x => acc.bind (fun a => step a x)) r) := by
  induction l generalizing r with
  | nil => exact hr
  | cons x rest ih => exact ih _ (Sound_bind hr (fun a => hstep a x))

theorem Sound_forEach (sims : List ι)
    (body : ι → Throwing.Machine ι σ ε → Throwing.Outcome ι σ ε (Throwing.Machine ι σ ε))
    (hbody : ∀ a m, Throwing.Sound id m (body a m)) (m : Throwing.Machine ι σ ε) :
    Throwing.Sound id m (Throwing.forEach sims body m) :=
  Sound_foldl id (fun m a => body a m) (fun m a => hbody a m) sims m _ (Sound_returned id m)

theorem Sound_forFlag
    (body : Int → Throwing.Machine ι σ ε → Throwing.Outcome ι σ ε (Throwing.Machine ι σ ε))
    (hbody : ∀ flag m, Throwing.Sound id m (body flag m)) (m : Throwing.Machine ι σ ε) :
    Throwing.Sound id m (Throwing.forFlag body m) :=
  Sound_foldl id (fun m (flag : Nat) => body (flag : Int) m) (fun m flag => hbody flag m)
    (List.range 2) m _ (Sound_returned id m)

theorem Sound_setup (env : Throwing.Env ι σ ε) (m : Throwing.Machine ι σ ε) :
    Throwing.Sound id m (Throwing.Run.setup env m) := by
  unfold Throwing.Run.setup
  refine Sound_bind (Sound_forEach _ _ (fun a m => Sound_invoke _ (by rfl) _ m) m) (fun m1 => ?_)
  refine Sound_bind (Sound_forFlag _ (fun flag m =>
    Sound_forEach _ _ (fun a m => Sound_invoke _ (by rfl) _ m) m) _) (fun m2 => ?_)
  refine Sound_bind (Sound_forFlag _ (fun flag m =>
    Sound_forEach _ _ (fun a m => Sound_invoke _ (by rfl) _ m) m) _) (fun m3 => ?_)
  refine Sound_bind (Sound_forEach _ _ (fun a m => Sound_invoke _ (by rfl) _ m) _) (fun m4 => ?_)
  exact Sound_forEach _ _ (fun a m => Sound_invoke _ (by rfl) _ m) _

theorem Sound_visit (env : Throwing.Env ι σ ε) (acc : Bool × Throwing.Machine ι σ ε) (a : ι) :
    Throwing.Sound (fun r : Bool × Throwing.Machine ι σ ε => r.2) acc.2
      (Throwing.Run.visit env acc a) := by
  unfold Throwing.Run.visit
  cases (env.sim a).IsFinished acc.2.world with
  | error e => exact ⟨rfl, [(Call.IsFinished a, some e)], rfl, FailedLast_single _ e rfl⟩
  | ok finished =>
    cases finished with
    | true => exact ⟨rfl, [(Call.IsFinished a, none)], rfl, Clean_single _ rfl⟩
    | false =>
      simp only [Bool.not_false, if_true]
      have hquery : Throwing.Clean [(Call.IsFinished a, (none : Option ε))] :=
        Clean_single _ rfl
      refine @Sound_extend ι σ ε _ _ acc.2
        { acc.2 with trace := acc.2.trace ++ [(Call.IsFinished a, none)] } _ _ rfl rfl hquery ?_
      refine Sound_bind (Sound_invoke _ (by rfl) _ _) (fun m1 => ?_)
      refine Sound_bind (Sound_invoke _ (by rfl) _ _) (fun m2 => ?_)
      exact Sound_returned (fun r : Bool × Throwing.Machine ι σ ε => r.2) (false, m2)

theorem Sound_solvePass (env : Throwing.Env ι σ ε) (m : Throwing.Machine ι σ ε) :
    Throwing.Sound (fun r : Bool × Throwing.Machine ι σ ε => r.2) m
      (Throwing.Run.solvePass env m) :=
  Sound_foldl _ (fun acc a => Throwing.Run.visit env acc a) (fun acc a => Sound_visit env acc a)
    _ m _ (Sound_returned (fun r : Bool × Throwing.Machine ι σ ε => r.2) (true, m))

theorem Sound_solveLoop (env : Throwing.Env ι σ ε) (fuel : Nat) (m : Throwing.Machine ι σ ε) :
    Throwing.Sound id m (Throwing.Run.solveLoop env fuel m) := by
  induction fuel generalizing m with
  | zero => exact ⟨rfl, [], by simp, Clean_nil⟩
  | succ n ih =>
    unfold Throwing.Run.solveLoop
    refine Sound_bind (Sound_solvePass env m) (fun r => ?_)
    split
    · exact Sound_returned id r.2
    · exact ih r.2

theorem Sound_Run (env : Throwing.Env ι σ ε) (fuel : Nat) (m : Throwing.Machine ι σ ε) :
    Throwing.Sound id m (Throwing.Run env fuel m) := by
  unfold Throwing.Run
  refine Sound_bind (Sound_setup env m) (fun m1 => ?_)
  refine Sound_bind (Sound_solveLoop env fuel _) (fun m2 => ?_)
  exact Sound_forEach _ _ (fun a m => Sound_invoke _ (by rfl) _ m) _

/-- What `Finalize` does in each of its outcomes: it never stays in a loop; when it throws, the
failing call is the last call; when it returns, no call failed. -/
theorem Finalize_outcome (env : Throwing.Env ι σ ε) (m : Throwing.Machine ι σ ε) :
    (∀ e m1, Throwing.Finalize env m = .thrown e m1 →
      ∃ t, m1.trace = m.trace ++ t ∧ Throwing.FailedLast e t) ∧
    (∀ m1, Throwing.Finalize env m = .returned m1 →
      ∃ t, m1.trace = m.trace ++ t ∧ ∀ x ∈ t, x.2 = none) ∧
    (∀ m1, Throwing.Finalize env m ≠ .running m1) := by
  have h := Sound_forEach m.self.simulations_
    (fun simulation => Throwing.invoke (Call.Finalize simulation) (env.sim simulation).Finalize)
    (fun a m => Sound_invoke _ (by rfl) _ m) m
  unfold Throwing.Finalize
  cases hr : Throwing.forEach m.self.simulations_
    (fun simulation => Throwing.invoke (Call.Finalize simulation) (env.sim simulation).Finalize)
    m with
  | thrown e m2 =>
    rw [hr] at h
    refine ⟨?_, ?_, ?_⟩
    · intro e1 m1 heq
      simp only [Throwing.Outcome.bind, Throwing.Outcome.thrown.injEq] at heq
      obtain ⟨rfl, rfl⟩ := heq
      exact h.2
    · intro m1 heq
      simp [Throwing.Outcome.bind] at heq
    · intro m1 heq
      simp [Throwing.Outcome.bind] at heq
  | running m2 =>
    exfalso
    have hno : ∀ (l : List ι) (r : Throwing.Outcome ι σ ε (Throwing.Machine ι σ ε)),
        (∀ m3, r ≠ .running m3) →
        ∀ m3, l.foldl (fun acc sim => acc.bind
          (Throwing.invoke (Call.Finalize sim) (env.sim sim).Finalize)) r ≠ .running m3 := by
      intro l
      induction l with
      | nil => intro r hr2; exact hr2
      | cons x rest ih =>
        intro r hr2
        apply ih
        intro m3
        cases r with
        | returned a =>
          simp only [Throwing.Outcome.bind, Throwing.invoke]
          cases (env.sim x).Finalize a.world <;> simp
        | thrown e a => simp [Throwing.Outcome.bind]
        | running a => exact absurd rfl (hr2 a)
    exact hno _ _ (by intro m3; simp) m2 hr
  | returned m2 =>
    rw [hr] at h
    obtain ⟨hs, t, ht, hc⟩ := h
    refine ⟨?_, ?_, ?_⟩
    · intro e1 m1 heq
      simp [Throwing.Outcome.bind] at heq
    · intro m1 heq
      simp only [Throwing.Outcome.bind, Throwing.Outcome.returned.injEq] at heq
      subst heq
      cases m2.self.comm_ with
      | none => exact ⟨t, ht, fun x hx => (hc x hx).1⟩
      | some c =>
        refine ⟨t ++ [(Call.CommFinalize, none)], ?_, ?_⟩
        · have ht2 : m2.trace = m.trace ++ t := ht
          simp [Throwing.commFinalize, ht2]
        · intro x hx
          rcases List.mem_append.1 hx with h1 | h1
          · exact (hc x h1).1
          · rw [List.mem_singleton.1 h1]
    · intro m1 heq
      simp [Throwing.Outcome.bind] at heq

/-- C9, counterexample: a framework holding a Process Group and the instances "A" and "B".
When `ReadMesh` on "A" throws, the only call ever made by `Run` and `Finalize` is that
`ReadMesh`; when `Finalize` on "A" throws, the last call made is that `Finalize`. In both runs
`NumSimComm::Finalize` is not called (the claim says the teardown is still attempted), although
it is called when nothing fails. -/
theorem C9_no_teardown_after_failure :
    (Throwing.runThenFinalize meshFailEnv 1
        ⟨{ comm_ := some {}, simulations_ := ["A", "B"] }, (), []⟩).trace =
      [(Call.ReadMesh "A", some "cannot read mesh")] ∧
    (Call.CommFinalize, none) ∉ (Throwing.runThenFinalize meshFailEnv 1
        ⟨{ comm_ := some {}, simulations_ := ["A", "B"] }, (), []⟩).trace ∧
    (Throwing.runThenFinalize finalizeFailEnv 1
        ⟨{ comm_ := some {}, simulations_ := ["B", "A"] }, (), []⟩).isThrown = true ∧
    (Throwing.runThenFinalize finalizeFailEnv 1
        ⟨{ comm_ := some {}, simulations_ := ["B", "A"] }, (), []⟩).trace.getLast? =
      some (Call.Finalize "A", some "cannot flush") ∧
    (Call.CommFinalize, none) ∉ (Throwing.runThenFinalize finalizeFailEnv 1
        ⟨{ comm_ := some {}, simulations_ := ["B", "A"] }, (), []⟩).trace ∧
    (Throwing.runThenFinalize finalizeFailEnv 1
        ⟨{ comm_ := some {}, simulations_ := ["B", "C"] }, (), []⟩).trace.getLast? =
      some (Call.CommFinalize, none) := by
  decide

/-- C9, amended: when a lifecycle call made by `Run` or `Finalize` throws, the exception
propagates out of `Run`, `Finalize` and the two statements of `main` that call them; the failing
call is the last call made (no lifecycle call of the same or a later phase follows on any
instance), and every call made is a lifecycle call on an instance, so that
`NumSimComm::Finalize` is not called. Conversely, when the two statements return or are still
running, no call has failed. -/
theorem C9_failure_propagates_and_skips_the_rest (env : Throwing.Env ι σ ε) (fuel : Nat)
    (fw : NumSimFramework ι) (w : σ) :
    (∀ e m1, Throwing.runThenFinalize env fuel ⟨fw, w, []⟩ = .thrown e m1 →
      ∃ pre c, m1.trace = pre ++ [(c, some e)] ∧ c.isLifecycle = true ∧
        ∀ x ∈ pre, x.2 = none ∧ x.1.isLifecycle = true) ∧
    (∀ e m1, Throwing.Run env fuel ⟨fw, w, []⟩ = .thrown e m1 →
      Throwing.runThenFinalize env fuel ⟨fw, w, []⟩ = .thrown e m1) ∧
    (∀ m1, Throwing.runThenFinalize env fuel ⟨fw, w, []⟩ = .returned m1 →
      ∀ x ∈ m1.trace, x.2 = none) ∧
    (∀ m1, Throwing.runThenFinalize env fuel ⟨fw, w, []⟩ = .running m1 →
      ∀ x ∈ m1.trace, x.2 = none) := by
  have hrun := Sound_Run env fuel ⟨fw, w, []⟩
  unfold Throwing.runThenFinalize
  cases hR : Throwing.Run env fuel ⟨fw, w, []⟩ with
  | thrown e m2 =>
    rw [hR] at hrun
    obtain ⟨-, t, ht, pre, c, hpre, hclean, hc⟩ := hrun
    simp only [List.nil_append] at ht
    refine ⟨?_, ?_, ?_, ?_⟩
    · intro e1 m1 heq
      simp only [Throwing.Outcome.bind, Throwing.Outcome.thrown.injEq] at heq
      obtain ⟨rfl, rfl⟩ := heq
      exact ⟨pre, c, by rw [ht, hpre], hc, hclean⟩
    · intro e1 m1 heq
      simpa [Throwing.Outcome.bind] using heq
    · intro m1 heq
      simp [Throwing.Outcome.bind] at heq
    · intro m1 heq
      simp [Throwing.Outcome.bind] at heq
  | running m2 =>
    rw [hR] at hrun
    obtain ⟨-, t, ht, hclean⟩ := hrun
    simp only [List.nil_append] at ht
    refine ⟨?_, ?_, ?_, ?_⟩
    · intro e1 m1 heq
      simp [Throwing.Outcome.bind] at heq
    · intro e1 m1 heq
      simp at heq
    · intro m1 heq
      simp [Throwing.Outcome.bind] at heq
    · intro m1 heq
      simp only [Throwing.Outcome.bind, Throwing.Outcome.running.injEq] at heq
      subst heq
      intro x hx
      rw [ht] at hx
      exact (hclean x hx).1
  | returned m2 =>
    rw [hR] at hrun
    obtain ⟨-, t, ht, hclean⟩ := hrun
    have ht2 : m2.trace = t := by simpa using ht
    obtain ⟨hthrown, hret, hnorun⟩ := Finalize_outcome env m2
    refine ⟨?_, ?_, ?_, ?_⟩
    · intro e1 m1 heq
      obtain ⟨t3, ht3, pre, c, hpre, hclean3, hc⟩ := hthrown e1 m1 heq
      exact ⟨t ++ pre, c, by rw [ht3, ht2, hpre, List.append_assoc], hc,
        Clean_append hclean hclean3⟩
    · intro e1 m1 heq
      simp at heq
    · intro m1 heq
      obtain ⟨t3, ht3, hnone⟩ := hret m1 heq
      intro x hx
      rw [ht3, ht2] at hx
      rcases List.mem_append.1 hx with h1 | h1
      · exact (hclean x h1).1
      · exact hnone x h1
    · intro m1 heq
      exact absurd heq (hnorun m1)

/-- Witness of C9: `ReadMesh` on "A" throws in a framework that holds a Process Group. -/
theorem C9_failure_propagates_and_skips_the_rest_witness :
    Throwing.runThenFinalize meshFailEnv 1
        ⟨{ comm_ := some {}, simulations_ := ["A", "B"] }, (), []⟩ =
      .thrown "cannot read mesh" ⟨{ comm_ := some {}, simulations_ := ["A", "B"] }, (),
        [(Call.ReadMesh "A", some "cannot read mesh")]⟩ ∧
    ∃ pre c, [(Call.ReadMesh "A", some "cannot read mesh")] =
        pre ++ [(c, some "cannot read mesh")] ∧ c.isLifecycle = true ∧
      ∀ x ∈ pre, x.2 = none ∧ x.1.isLifecycle = true :=
  ⟨rfl, (C9_failure_propagates_and_skips_the_rest meshFailEnv 1
    { comm_ := some {}, simulations_ := ["A", "B"] } ()).1 _ _ rfl⟩

end Failure

/-! ### The two semantics agree when no call fails -/

section Agreement

variable {ε : Type}

theorem ofMachine_invoke (c : Call ι) (f : σ → σ) (m : Machine ι σ) :
    Throwing.invoke (ε := ε) c (fun w => .ok (f w)) (Throwing.ofMachine m) =
      .returned (Throwing.ofMachine (invoke c f m)) := by
  simp [Throwing.invoke, Throwing.ofMachine, invoke]

theorem ofMachine_forEach (c : ι → Call ι) (f : ι → σ → σ) (sims : List ι) (m : Machine ι σ) :
    Throwing.forEach (ε := ε) sims (fun a => Throwing.invoke (c a) (fun w => .ok (f a w)))
        (Throwing.ofMachine m) =
      .returned (Throwing.ofMachine (forEach sims (fun a => invoke (c a) (f a)) m)) := by
  induction sims generalizing m with
  | nil => rfl
  | cons a rest ih =>
    have hstep : Throwing.forEach (ε := ε) (a :: rest)
        (fun a => Throwing.invoke (c a) (fun w => .ok (f a w))) (Throwing.ofMachine m) =
        Throwing.forEach rest (fun a => Throwing.invoke (c a) (fun w => .ok (f a w)))
          (Throwing.ofMachine (invoke (c a) (f a) m)) := by
      simp only [Throwing.forEach, List.foldl_cons, Throwing.Outcome.bind, ofMachine_invoke]
    rw [hstep, ih, forEach_cons]

theorem ofMachine_setup (env : Env ι σ) (m : Machine ι σ) :
    Throwing.Run.setup (ε := ε) (Throwing.ofEnv env) (Throwing.ofMachine m) =
      .returned (Throwing.ofMachine (Run.setup env m)) := by
  have hself : ∀ m : Machine ι σ, (Throwing.ofMachine (ε := ε) m).self = m.self := fun _ => rfl
  have hflag : ∀ (body : Int → Throwing.Machine ι σ ε →
      Throwing.Outcome ι σ ε (Throwing.Machine ι σ ε)) (m : Throwing.Machine ι σ ε),
      Throwing.forFlag body m = (body 0 m).bind (body 1) := fun _ _ => rfl
  simp only [Throwing.Run.setup, Run.setup, Throwing.ofEnv, hself, hflag, forFlag_eq,
    ofMachine_forEach, Throwing.Outcome.bind, forEach_invoke_self]

theorem ofMachine_visit_foldl (env : Env ι σ) (sims : List ι) (b : Bool) (m : Machine ι σ) :
    sims.foldl (fun (acc : Throwing.Outcome ι σ ε (Bool × Throwing.Machine ι σ ε)) simulation =>
        acc.bind (fun a => Throwing.Run.visit (Throwing.ofEnv env) a simulation))
        (Throwing.Outcome.returned (b, Throwing.ofMachine m)) =
      Throwing.Outcome.returned ((sims.foldl (Run.visit env) (b, m)).1,
        Throwing.ofMachine (sims.foldl (Run.visit env) (b, m)).2) := by
  induction sims generalizing b m with
  | nil => rfl
  | cons a rest ih =>
    by_cases h : (env.sim a).IsFinished m.world = true
    · have h1 : (Throwing.Outcome.returned (b, Throwing.ofMachine m)).bind
          (fun a0 => Throwing.Run.visit (ε := ε) (Throwing.ofEnv env) a0 a) =
          .returned (b, Throwing.ofMachine (invoke (Call.IsFinished a) id m)) := by
        simp [Throwing.Outcome.bind, Throwing.Run.visit, Throwing.ofEnv, Throwing.ofMachine, h,
          invoke]
      have h2 : Run.visit env (b, m) a = (b, invoke (Call.IsFinished a) id m) := by
        simp [Run.visit, h]
      simp only [List.foldl_cons, h1, h2, ih]
    · simp only [Bool.not_eq_true] at h
      have h1 : (Throwing.Outcome.returned (b, Throwing.ofMachine m)).bind
          (fun a0 => Throwing.Run.visit (ε := ε) (Throwing.ofEnv env) a0 a) =
          .returned (false, Throwing.ofMachine (invoke (Call.Post a) (env.sim a).Post
            (invoke (Call.Solve a) (env.sim a).Solve (invoke (Call.IsFinished a) id m)))) := by
        simp [Throwing.Run.visit, Throwing.ofEnv, Throwing.ofMachine, h, invoke,
          Throwing.invoke, Throwing.Outcome.bind]
      have h2 : Run.visit env (b, m) a = (false, invoke (Call.Post a) (env.sim a).Post
            (invoke (Call.Solve a) (env.sim a).Solve (invoke (Call.IsFinished a) id m))) := by
        simp [Run.visit, h]
      simp only [List.foldl_cons, h1, h2, ih]

theorem ofMachine_solveLoop (env : Env ι σ) (fuel : Nat) (m : Machine ι σ) :
    Throwing.Run.solveLoop (ε := ε) (Throwing.ofEnv env) fuel (Throwing.ofMachine m) =
      Throwing.ofOutcome (Run.solveLoop env fuel m) := by
  induction fuel generalizing m with
  | zero => rfl
  | succ n ih =>
    have hpass : Throwing.Run.solvePass (ε := ε) (Throwing.ofEnv env) (Throwing.ofMachine m) =
        .returned ((Run.solvePass env m).1, Throwing.ofMachine (Run.solvePass env m).2) :=
      ofMachine_visit_foldl env m.self.simulations_ true m
    simp only [Throwing.Run.solveLoop, Run.solveLoop, hpass, Throwing.Outcome.bind]
    split
    · rfl
    · exact ih _

/-- When no call fails, `Run` in the semantics with exceptions does what `Run` does in the
semantics without. -/
theorem Throwing_Run_agrees (env : Env ι σ) (fuel : Nat) (m : Machine ι σ) :
    Throwing.Run (ε := ε) (Throwing.ofEnv env) fuel (Throwing.ofMachine m) =
      Throwing.ofOutcome (NumSimFramework.Run env fuel m) := by
  simp only [Throwing.Run, NumSimFramework.Run, ofMachine_setup, Throwing.Outcome.bind,
    ofMachine_solveLoop]
  cases Run.solveLoop env fuel (Run.setup env m) with
  | returned m1 =>
    simp only [Throwing.ofOutcome, Run.finalPost]
    exact ofMachine_forEach Call.Post (fun a => (env.sim a).Post) m1.self.simulations_ m1
  | running m1 => rfl

/-- When no call fails, `Finalize` in the semantics with exceptions does what `Finalize` does in
the semantics without. -/
theorem Throwing_Finalize_agrees (env : Env ι σ) (m : Machine ι σ) :
    Throwing.Finalize (ε := ε) (Throwing.ofEnv env) (Throwing.ofMachine m) =
      .returned (Throwing.ofMachine (NumSimFramework.Finalize env m)) := by
  have h := ofMachine_forEach (ε := ε) Call.Finalize (fun a => (env.sim a).Finalize)
    m.self.simulations_ m
  have hself : (Throwing.ofMachine (ε := ε) m).self = m.self := rfl
  simp only [Throwing.Finalize, NumSimFramework.Finalize, Throwing.ofEnv, hself] at h ⊢
  rw [h]
  simp only [Throwing.Outcome.bind]
  have hs2 : ∀ m : Machine ι σ, (Throwing.ofMachine (ε := ε) m).self = m.self := fun _ => rfl
  rw [hs2]
  cases (forEach m.self.simulations_
    (fun a => invoke (Call.Finalize a) (env.sim a).Finalize) m).self.comm_ with
  | none => rfl
  | some c =>
    simp [Throwing.commFinalize, Throwing.ofMachine, NumSimComm.Finalize, invoke]

end Agreement

/-! ### C11 -/

section Carrier

variable {δ β μ : Type}

theorem calls_without_Initialize (mpi : Bootstrap.MPI μ) (history : List Bootstrap.CommCall)
    (hno : ∀ c ∈ history, c.isInitialize = false) (s s1 : NumSimComm × μ)
    (hrun : Bootstrap.calls mpi history s = .ok s1) : s1.1 = s.1 := by
  induction history generalizing s with
  | nil =>
    simp only [Bootstrap.calls, Except.ok.injEq] at hrun
    rw [hrun]
  | cons c rest ih =>
    have hc := hno c (List.mem_cons_self c rest)
    have hrest : ∀ x ∈ rest, x.isInitialize = false :=
      fun x hx => hno x (List.mem_cons_of_mem c hx)
    unfold Bootstrap.calls at hrun
    cases hstep : Bootstrap.call mpi c s with
    | error e => rw [hstep] at hrun; cases hrun
    | ok s2 =>
      rw [hstep] at hrun
      have h2 : s2.1 = s.1 := by
        cases c with
        | Initialize j => simp [Bootstrap.CommCall.isInitialize] at hc
        | PrintInfo =>
          simp only [Bootstrap.call, Bootstrap.PrintInfo, Except.ok.injEq] at hstep
          rw [← hstep]
        | Finalize =>
          simp only [Bootstrap.call, Bootstrap.Finalize] at hstep
          cases hf : mpi.MPI_Finalize s.2 with
          | error e => rw [hf] at hstep; cases hstep
          | ok w2 =>
            rw [hf] at hstep
            simp only [Except.ok.injEq] at hstep
            rw [← hstep]
      rw [ih hrest s2 hrun, h2]

/-- C11: a `NumSimComm` that has been constructed and on which any sequence of calls other than
`Initialize` has been made returns 0 from `GetMyRank` and 1 from `GetNumProcs`, whatever the
MPI library does; these values satisfy `0 ≤ rank < size` and `size ≥ 1`. -/
theorem C11_rank_and_size_before_bootstrap (mpi : Bootstrap.MPI μ)
    (history : List Bootstrap.CommCall) (w w1 : μ) (c1 : NumSimComm)
    (hno : ∀ c ∈ history, c.isInitialize = false)
    (hrun : Bootstrap.calls mpi history (NumSimComm.construct, w) = .ok (c1, w1)) :
    c1.GetMyRank = 0 ∧ c1.GetNumProcs = 1 ∧
    0 ≤ c1.GetMyRank ∧ c1.GetMyRank < c1.GetNumProcs ∧ 1 ≤ c1.GetNumProcs := by
  have h : c1 = NumSimComm.construct :=
    calls_without_Initialize mpi history hno (NumSimComm.construct, w) (c1, w1) hrun
  subst h
  decide

/-- Witness of C11: a freshly constructed `NumSimComm` on which `PrintInfo` was called twice, in
a process launched as rank 2 of 4. -/
theorem C11_rank_and_size_before_bootstrap_witness :
    (∀ c ∈ [Bootstrap.CommCall.PrintInfo, Bootstrap.CommCall.PrintInfo],
      c.isInitialize = false) ∧
    Bootstrap.calls Bootstrap.specMPI [.PrintInfo, .PrintInfo]
      (NumSimComm.construct, demoProcess) = .ok (NumSimComm.construct, demoProcess) ∧
    NumSimComm.construct.GetMyRank = 0 ∧ NumSimComm.construct.GetNumProcs = 1 ∧
    0 ≤ NumSimComm.construct.GetMyRank ∧
    NumSimComm.construct.GetMyRank < NumSimComm.construct.GetNumProcs ∧
    1 ≤ NumSimComm.construct.GetNumProcs :=
  ⟨by simp [Bootstrap.CommCall.isInitialize], rfl,
    C11_rank_and_size_before_bootstrap Bootstrap.specMPI [.PrintInfo, .PrintInfo] demoProcess
      demoProcess NumSimComm.construct (by simp [Bootstrap.CommCall.isInitialize]) rfl⟩

/-! ### C12 -/

theorem SetObjectName_foldl_json (names : List String) (o : NumSimObject δ) :
    (names.foldl (fun acc name => acc.SetObjectName name) o).numSimSolverJson_ =
      o.numSimSolverJson_ := by
  induction names generalizing o with
  | nil => rfl
  | cons n rest ih =>
    rw [List.foldl_cons, ih]
    rfl

/-- C12: `GetNumSimSolverJson` returns the stored pointer itself, computed from its value alone
(nothing is read through it); on an object on which `SetNumSimSolverJson` was never called
(constructed, then renamed any number of times) it returns null; after
`SetNumSimSolverJson(d)` it returns the reference to `d`, and the object name and the class name
are what they were. -/
theorem C12_config_reference_get_set (o : NumSimObject δ) (d : δ) (names : List String) :
    (NumSimObject.construct : NumSimObject δ).GetNumSimSolverJson = none ∧
    (names.foldl (fun acc name => acc.SetObjectName name)
      (NumSimObject.construct : NumSimObject δ)).GetNumSimSolverJson = none ∧
    o.GetNumSimSolverJson = o.numSimSolverJson_ ∧
    (o.SetNumSimSolverJson d).GetNumSimSolverJson = some d ∧
    (o.SetNumSimSolverJson d).GetObjectName = o.GetObjectName ∧
    (o.SetNumSimSolverJson d).GetClassName = o.GetClassName := by
  have hget : ∀ x : NumSimObject δ, x.GetNumSimSolverJson = x.numSimSolverJson_ := by
    intro x
    unfold NumSimObject.GetNumSimSolverJson
    cases x.numSimSolverJson_ <;> rfl
  refine ⟨rfl, ?_, hget o, ?_, rfl, rfl⟩
  · rw [hget, SetObjectName_foldl_json]
    rfl
  · rw [hget]
    rfl

/-! ### C13 -/

/-- `NumSimComm::Initialize` has no failure of its own and hides none: it fails exactly when
one of its three calls into the MPI library fails, with the error of that call. -/
theorem Initialize_fails_only_through_MPI (mpi : Bootstrap.MPI μ)
    (numSimSolverJson : JsonObject) (self : NumSimComm) (w : μ) (e : Bootstrap.MPIError) :
    Bootstrap.Initialize mpi numSimSolverJson self w = .error e ↔
      (mpi.MPI_Init w = .error e ∨
       ∃ w1, mpi.MPI_Init w = .ok w1 ∧
         (mpi.MPI_Comm_rank w1 = .error e ∨
          ∃ rank, mpi.MPI_Comm_rank w1 = .ok rank ∧ mpi.MPI_Comm_size w1 = .error e)) := by
  unfold Bootstrap.Initialize
  cases h1 : mpi.MPI_Init w with
  | error e1 => simp
  | ok w1 =>
    cases h2 : mpi.MPI_Comm_rank w1 with
    | error e2 => simp [h2]
    | ok rank =>
      cases h3 : mpi.MPI_Comm_size w1 with
      | error e3 => simp [h2, h3]
      | ok size => simp [h2, h3]

/-- `NumSimComm::Finalize` fails exactly when `MPI_Finalize` fails. -/
theorem Finalize_fails_only_through_MPI (mpi : Bootstrap.MPI μ) (self : NumSimComm) (w : μ)
    (e : Bootstrap.MPIError) :
    Bootstrap.Finalize mpi self w = .error e ↔ mpi.MPI_Finalize w = .error e := by
  unfold Bootstrap.Finalize
  cases h1 : mpi.MPI_Finalize w with
  | error e1 => simp
  | ok w1 => simp

theorem Initialize_sets_initialized (numSimSolverJson : JsonObject) (self c1 : NumSimComm)
    (w w1 : Bootstrap.Process)
    (h : Bootstrap.Initialize Bootstrap.specMPI numSimSolverJson self w = .ok (c1, w1)) :
    w1.initialized = true := by
  unfold Bootstrap.Initialize Bootstrap.specMPI at h
  by_cases hi : w.initialized = true
  · simp [hi] at h
  · by_cases hf : w.finalized = true
    · simp [hi, hf] at h
    · simp only [hi, hf, Bool.false_eq_true, if_false, Bool.not_false, Bool.and_self, if_true,
        Except.ok.injEq, Prod.mk.injEq] at h
      rw [← h.2]

theorem call_keeps_initialized (c : Bootstrap.CommCall) (s s1 : NumSimComm × Bootstrap.Process)
    (hinit : s.2.initialized = true)
    (h : Bootstrap.call Bootstrap.specMPI c s = .ok s1) : s1.2.initialized = true := by
  cases c with
  | Initialize j =>
    simp [Bootstrap.call, Bootstrap.Initialize, Bootstrap.specMPI, hinit] at h
  | PrintInfo =>
    simp only [Bootstrap.call, Bootstrap.PrintInfo, Except.ok.injEq] at h
    rw [← h]
    exact hinit
  | Finalize =>
    simp only [Bootstrap.call, Bootstrap.Finalize, Bootstrap.specMPI, hinit] at h
    by_cases hf : s.2.finalized = true
    · simp [hf] at h
    · simp only [hf, Bool.false_eq_true, Bool.not_false, Bool.and_self, if_true,
        Except.ok.injEq] at h
      rw [← h]

theorem calls_keep_initialized (history : List Bootstrap.CommCall)
    (s s1 : NumSimComm × Bootstrap.Process) (hinit : s.2.initialized = true)
    (h : Bootstrap.calls Bootstrap.specMPI history s = .ok s1) : s1.2.initialized = true := by
  induction history generalizing s with
  | nil =>
    simp only [Bootstrap.calls, Except.ok.injEq] at h
    rw [← h]
    exact hinit
  | cons c rest ih =>
    unfold Bootstrap.calls at h
    cases hstep : Bootstrap.call Bootstrap.specMPI c s with
    | error e => rw [hstep] at h; cases h
    | ok s2 =>
      rw [hstep] at h
      exact ih s2 (call_keeps_initialized c s s2 hinit hstep) h

theorem calls_without_Initialize_keep_uninitialized (history : List Bootstrap.CommCall)
    (hno : ∀ c ∈ history, c.isInitialize = false) (s s1 : NumSimComm × Bootstrap.Process)
    (hnone : s.2.initialized = false)
    (h : Bootstrap.calls Bootstrap.specMPI history s = .ok s1) :
    s1.2.initialized = false := by
  induction history generalizing s with
  | nil =>
    simp only [Bootstrap.calls, Except.ok.injEq] at h
    rw [← h]
    exact hnone
  | cons c rest ih =>
    have hc := hno c (List.mem_cons_self c rest)
    have hrest : ∀ x ∈ rest, x.isInitialize = false :=
      fun x hx => hno x (List.mem_cons_of_mem c hx)
    unfold Bootstrap.calls at h
    cases hstep : Bootstrap.call Bootstrap.specMPI c s with
    | error e => rw [hstep] at h; cases h
    | ok s2 =>
      rw [hstep] at h
      refine ih hrest s2 ?_ h
      cases c with
      | Initialize j => simp [Bootstrap.CommCall.isInitialize] at hc
      | PrintInfo =>
        simp only [Bootstrap.call, Bootstrap.PrintInfo, Except.ok.injEq] at hstep
        rw [← hstep]
        exact hnone
      | Finalize =>
        simp [Bootstrap.call, Bootstrap.Finalize, Bootstrap.specMPI, hnone] at hstep

/-- C15: in a process in which a call of `NumSimComm::Initialize` has succeeded, every later
call of `NumSimComm::Initialize` fails, whatever calls were made in between and on whichever
object; and in a process that has not been initialized and in which no `Initialize` has been
called, a call of `NumSimComm::Finalize` fails. -/
theorem C15_second_bootstrap_and_early_teardown_fail
    (json1 json2 : JsonObject) (self c1 c2 c3 c4 : NumSimComm)
    (w w1 w2 w3 w4 : Bootstrap.Process) (between before : List Bootstrap.CommCall)
    (hfirst : Bootstrap.Initialize Bootstrap.specMPI json1 self w = .ok (c1, w1))
    (hbetween : Bootstrap.calls Bootstrap.specMPI between (c1, w1) = .ok (c2, w2))
    (hfresh : w3.initialized = false)
    (hno : ∀ c ∈ before, c.isInitialize = false)
    (hbefore : Bootstrap.calls Bootstrap.specMPI before (c3, w3) = .ok (c4, w4)) :
    Bootstrap.Initialize Bootstrap.specMPI json2 c2 w2 = .error .alreadyInitialized ∧
    Bootstrap.Finalize Bootstrap.specMPI c4 w4 = .error .notInitialized := by
  have h1 : w1.initialized = true := Initialize_sets_initialized json1 self c1 w w1 hfirst
  have h2 : w2.initialized = true :=
    calls_keep_initialized between (c1, w1) (c2, w2) h1 hbetween
  have h4 : w4.initialized = false :=
    calls_without_Initialize_keep_uninitialized before hno (c3, w3) (c4, w4) hfresh hbefore
  constructor
  · simp [Bootstrap.Initialize, Bootstrap.specMPI, h2]
  · simp [Bootstrap.Finalize, Bootstrap.specMPI, h4]

/-- Witness of C15: a process launched as rank 2 of 4; `Initialize` succeeds, `PrintInfo` is
called, and a second `Initialize` fails; in the same process before any call, `Finalize`
fails. -/
theorem C15_second_bootstrap_and_early_teardown_fail_witness :
    Bootstrap.Initialize Bootstrap.specMPI demoConfig NumSimComm.construct demoProcess =
      .ok ({ myRank_ := 2, numProcs_ := 4 },
        { initialized := true, finalized := false, rank := 2, size := 4 }) ∧
    Bootstrap.Initialize Bootstrap.specMPI demoConfig { myRank_ := 2, numProcs_ := 4 }
        { initialized := true, finalized := false, rank := 2, size := 4 } =
      .error .alreadyInitialized ∧
    Bootstrap.Finalize Bootstrap.specMPI NumSimComm.construct demoProcess =
      .error .notInitialized :=
  ⟨rfl, C15_second_bootstrap_and_early_teardown_fail demoConfig demoConfig NumSimComm.construct
    _ _ NumSimComm.construct _ demoProcess _ _ demoProcess _ [.PrintInfo] [] rfl rfl rfl
    (by simp) rfl⟩

end Carrier

/-! ### C16 -/

theorem passAllFinished_iff (env : Env ι σ) (l : List ι) (w : σ) :
    passAllFinished env l w = true ↔ ∀ a ∈ l, (env.sim a).IsFinished w = true := by
  induction l with
  | nil => simp [passAllFinished]
  | cons a rest ih =>
    by_cases h : (env.sim a).IsFinished w = true
    · simp [passAllFinished, h, ih]
    · simp [passAllFinished, h]

theorem passCalls_of_all_finished (env : Env ι σ) (l : List ι) (w : σ)
    (h : ∀ a ∈ l, (env.sim a).IsFinished w = true) :
    passCalls env l w = l.map Call.IsFinished ∧ passWorld env l w = w := by
  induction l with
  | nil => exact ⟨rfl, rfl⟩
  | cons a rest ih =>
    have ha := h a (List.mem_cons_self a rest)
    obtain ⟨h1, h2⟩ := ih (fun b hb => h b (List.mem_cons_of_mem a hb))
    simp [passCalls, passWorld, ha, h1, h2]

theorem solveLoop_exit (env : Env ι σ) (fuel : Nat) (m : Machine ι σ)
    (h : passAllFinished env m.self.simulations_ m.world = true) :
    Run.solveLoop env (fuel + 1) m =
      .returned ⟨m.self, m.world, m.trace ++ m.self.simulations_.map Call.IsFinished⟩ := by
  obtain ⟨h1, h2⟩ := passCalls_of_all_finished env _ m.world ((passAllFinished_iff env _ _).1 h)
  simp only [Run.solveLoop, solvePass_eq, h, h1, h2, if_true]

theorem solveLoop_continue (env : Env ι σ) (fuel : Nat) (m : Machine ι σ)
    (h : passAllFinished env m.self.simulations_ m.world = false) :
    Run.solveLoop env (fuel + 1) m = Run.solveLoop env fuel (Run.solvePass env m).2 := by
  simp only [Run.solveLoop, solvePass_eq, h, Bool.false_eq_true, if_false]

/-- C16: the value of `allFinished` at the end of a pass is the conjunction of the results of
the finished queries made in the pass, and it is true exactly when every instance reports
finished in the state the pass starts in; when it is true the loop exits after this pass, which
has made the finished queries only (no `Solve`, no `Post`) and left the state unchanged; when it
is false another pass follows; a pass that contains a `Solve` ends with it false. -/
theorem C16_loop_exits_iff_all_finished (env : Env ι σ) (m : Machine ι σ) (fuel : Nat) :
    (Run.solvePass env m).1 = passAllFinished env m.self.simulations_ m.world ∧
    (passAllFinished env m.self.simulations_ m.world = true ↔
      ∀ a ∈ m.self.simulations_, (env.sim a).IsFinished m.world = true) ∧
    (passAllFinished env m.self.simulations_ m.world = true →
      Run.solveLoop env (fuel + 1) m =
        .returned ⟨m.self, m.world, m.trace ++ m.self.simulations_.map Call.IsFinished⟩) ∧
    (passAllFinished env m.self.simulations_ m.world = false →
      Run.solveLoop env (fuel + 1) m = Run.solveLoop env fuel (Run.solvePass env m).2) ∧
    ((∃ a, Call.Solve a ∈ passCalls env m.self.simulations_ m.world) →
      passAllFinished env m.self.simulations_ m.world = false) := by
  refine ⟨by rw [solvePass_eq], passAllFinished_iff env _ _, solveLoop_exit env fuel m,
    solveLoop_continue env fuel m, ?_⟩
  rintro ⟨a, ha⟩
  cases hf : passAllFinished env m.self.simulations_ m.world with
  | false => rfl
  | true =>
    obtain ⟨h1, -⟩ :=
      passCalls_of_all_finished env _ m.world ((passAllFinished_iff env _ _).1 hf)
    rw [h1] at ha
    simp at ha

/-! ### C17 -/

theorem passCalls_balanced [DecidableEq ι] (env : Env ι σ) (l : List ι) (w : σ) :
    (∀ a, (passCalls env l w).count (Call.Post a) = (passCalls env l w).count (Call.Solve a)) ∧
    (passCalls env l w).countP Call.isPost = (passCalls env l w).countP Call.isSolve := by
  induction l generalizing w with
  | nil => simp [passCalls]
  | cons b rest ih =>
    unfold passCalls
    split
    · obtain ⟨h1, h2⟩ := ih w
      refine ⟨fun a => ?_, ?_⟩
      · simp [List.count_cons, h1 a]
      · simp [List.countP_cons, Call.isPost, Call.isSolve, h2]
    · obtain ⟨h1, h2⟩ := ih ((env.sim b).Post ((env.sim b).Solve w))
      refine ⟨fun a => ?_, ?_⟩
      · simp [List.count_cons, h1 a]
      · simp [List.countP_cons, Call.isPost, Call.isSolve, h2]

theorem solveLoop_balanced [DecidableEq ι] (env : Env ι σ) (fuel : Nat) (m : Machine ι σ) :
    ∃ t : List (Call ι), (Run.solveLoop env fuel m).machine.trace = m.trace ++ t ∧
      (∀ a, t.count (Call.Post a) = t.count (Call.Solve a)) ∧
      t.countP Call.isPost = t.countP Call.isSolve := by
  induction fuel generalizing m with
  | zero => exact ⟨[], by simp [Run.solveLoop, Outcome.machine], by simp, by simp⟩
  | succ n ih =>
    obtain ⟨hb1, hb2⟩ := passCalls_balanced env m.self.simulations_ m.world
    simp only [Run.solveLoop, solvePass_eq]
    split
    · exact ⟨_, rfl, hb1, hb2⟩
    · obtain ⟨t, ht, h1, h2⟩ := ih
        { self := m.self, world := passWorld env m.self.simulations_ m.world,
          trace := m.trace ++ passCalls env m.self.simulations_ m.world }
      refine ⟨passCalls env m.self.simulations_ m.world ++ t, ?_, ?_, ?_⟩
      · rw [ht]; simp
      · intro a
        rw [List.count_append, List.count_append, hb1 a, h1 a]
      · rw [List.countP_append, List.countP_append, hb2, h2]

theorem setupCalls_filter_isPost (sims : List ι) :
    (setupCalls sims).filter Call.isPost = sims.map Call.Post := by
  simp only [setupCalls, initFieldsCalls, initBoundariesCalls, List.filter_append]
  rw [filter_map_none _ Call.ReadMesh _ (fun _ => rfl), filter_map_none _ _ _ (fun _ => rfl),
    filter_map_none _ _ _ (fun _ => rfl), filter_map_none _ _ _ (fun _ => rfl),
    filter_map_none _ _ _ (fun _ => rfl), filter_map_none _ Call.InitFromRestart _ (fun _ => rfl),
    filter_map_all _ Call.Post _ (fun _ => rfl)]
  rfl

theorem count_Solve_of_no_solve [DecidableEq ι] (t : List (Call ι)) (h : ∀ c ∈ t, c.isSolve = false) (a : ι) :
    t.count (Call.Solve a) = 0 := by
  rw [List.count_eq_zero]
  intro hmem
  have := h _ hmem
  simp [Call.isSolve] at this

theorem countP_isSolve_of_no_solve (t : List (Call ι)) (h : ∀ c ∈ t, c.isSolve = false) :
    t.countP Call.isSolve = 0 := by
  rw [List.countP_eq_zero]
  intro c hc
  simp [h c hc]

theorem map_Post_no_solve (sims : List ι) : ∀ c ∈ sims.map Call.Post, c.isSolve = false := by
  intro c hc
  obtain ⟨a, -, rfl⟩ := List.mem_map.1 hc
  rfl

theorem count_Post_map_Post [DecidableEq ι] (sims : List ι) (a : ι) :
    (sims.map Call.Post).count (Call.Post a) = sims.count a :=
  List.count_map_of_injective sims Call.Post (fun _ _ h => Call.Post.inj h) a

theorem countP_isPost_map_Post (sims : List ι) :
    (sims.map Call.Post).countP Call.isPost = sims.length := by
  rw [List.countP_eq_length_filter, filter_map_all _ Call.Post _ (fun _ => rfl), List.length_map]

/-- The `Post` and `Solve` calls in the trace of a `Run` that returned. -/
theorem Run_post_solve_counts [DecidableEq ι] (env : Env ι σ) (fw : NumSimFramework ι) (w : σ) (fuel : Nat)
    (m1 : Machine ι σ) (hrun : NumSimFramework.Run env fuel ⟨fw, w, []⟩ = .returned m1) :
    (∀ a, m1.trace.count (Call.Post a) =
      m1.trace.count (Call.Solve a) + 2 * fw.simulations_.count a) ∧
    m1.trace.countP Call.isPost =
      m1.trace.countP Call.isSolve + 2 * fw.simulations_.length := by
  obtain ⟨t, ht, hb1, hb2⟩ := solveLoop_balanced env fuel (Run.setup env ⟨fw, w, []⟩)
  have hs := solveLoop_self env fuel (Run.setup env ⟨fw, w, []⟩)
  unfold NumSimFramework.Run at hrun
  cases hr : Run.solveLoop env fuel (Run.setup env ⟨fw, w, []⟩) with
  | running m2 => rw [hr] at hrun; cases hrun
  | returned m2 =>
    rw [hr] at hrun ht hs
    simp only [Outcome.machine, setup_trace, setup_self, List.nil_append] at ht hs
    simp only [Outcome.returned.injEq] at hrun
    have htr : m1.trace = setupCalls fw.simulations_ ++ t ++ fw.simulations_.map Call.Post := by
      rw [← hrun, finalPost_trace, ht, hs]
    have hsetupPost : ∀ a, (setupCalls fw.simulations_).count (Call.Post a) =
        fw.simulations_.count a := fun a =>
      count_of_filter_eq_map Call.isPost Call.Post (fun _ _ h => Call.Post.inj h)
        (fun _ => rfl) _ _ (setupCalls_filter_isPost fw.simulations_) a
    have hsetupPostP : (setupCalls fw.simulations_).countP Call.isPost =
        fw.simulations_.length := by
      rw [List.countP_eq_length_filter, setupCalls_filter_isPost, List.length_map]
    refine ⟨fun a => ?_, ?_⟩
    · rw [htr]
      simp only [List.count_append, hsetupPost a, hb1 a, count_Post_map_Post,
        count_Solve_of_no_solve _ (setupCalls_no_solve fw.simulations_) a,
        count_Solve_of_no_solve _ (map_Post_no_solve fw.simulations_) a]
      omega
    · rw [htr]
      simp only [List.countP_append, hsetupPostP, hb2, countP_isPost_map_Post,
        countP_isSolve_of_no_solve _ (setupCalls_no_solve fw.simulations_),
        countP_isSolve_of_no_solve _ (map_Post_no_solve fw.simulations_)]
      omega

/-- C17: in the trace of every `Run` that returned, each instance has received as many `Post`
calls as `Solve` calls plus two for each of its occurrences in the collection, that is exactly
two more when the instances of the collection are distinct; the total number of `Post` calls is
the total number of `Solve` calls plus twice the size of the collection. -/
theorem C17_two_more_posts_than_solves [DecidableEq ι] (env : Env ι σ) (fw : NumSimFramework ι) (w : σ)
    (fuel : Nat) (m1 : Machine ι σ)
    (hrun : NumSimFramework.Run env fuel ⟨fw, w, []⟩ = .returned m1) :
    (∀ a, m1.trace.count (Call.Post a) =
      m1.trace.count (Call.Solve a) + 2 * fw.simulations_.count a) ∧
    (fw.simulations_.Nodup → ∀ a ∈ fw.simulations_,
      m1.trace.count (Call.Post a) = m1.trace.count (Call.Solve a) + 2) ∧
    m1.trace.countP Call.isPost =
      m1.trace.countP Call.isSolve + 2 * fw.simulations_.length := by
  obtain ⟨h1, h2⟩ := Run_post_solve_counts env fw w fuel m1 hrun
  refine ⟨h1, ?_, h2⟩
  intro hnd a ha
  rw [h1 a, List.count_eq_one_of_mem hnd ha]

/-- Witness of C17: the instances "A" and "B" sharing a counter that starts at 1, so that "A"
is solved once and "B" never. -/
theorem C17_two_more_posts_than_solves_witness :
    NumSimFramework.Run countdownEnv 2 ⟨{ simulations_ := ["A", "B"] }, 1, []⟩ =
        .returned ⟨{ simulations_ := ["A", "B"] }, 0,
          [.ReadMesh "A", .ReadMesh "B", .InitFields "A" 0, .InitFields "B" 0,
            .InitFields "A" 1, .InitFields "B" 1, .InitBoundaries "A" 0, .InitBoundaries "B" 0,
            .InitBoundaries "A" 1, .InitBoundaries "B" 1, .InitFromRestart "A",
            .InitFromRestart "B", .Post "A", .Post "B",
            .IsFinished "A", .Solve "A", .Post "A", .IsFinished "B",
            .IsFinished "A", .IsFinished "B", .Post "A", .Post "B"]⟩ ∧
    (([.ReadMesh "A", .ReadMesh "B", .InitFields "A" 0, .InitFields "B" 0,
            .InitFields "A" 1, .InitFields "B" 1, .InitBoundaries "A" 0, .InitBoundaries "B" 0,
            .InitBoundaries "A" 1, .InitBoundaries "B" 1, .InitFromRestart "A",
            .InitFromRestart "B", .Post "A", .Post "B",
            .IsFinished "A", .Solve "A", .Post "A", .IsFinished "B",
            .IsFinished "A", .IsFinished "B", .Post "A", .Post "B"] :
          List (Call String)).countP Call.isPost =
      ([.ReadMesh "A", .ReadMesh "B", .InitFields "A" 0, .InitFields "B" 0,
            .InitFields "A" 1, .InitFields "B" 1, .InitBoundaries "A" 0, .InitBoundaries "B" 0,
            .InitBoundaries "A" 1, .InitBoundaries "B" 1, .InitFromRestart "A",
            .InitFromRestart "B", .Post "A", .Post "B",
            .IsFinished "A", .Solve "A", .Post "A", .IsFinished "B",
            .IsFinished "A", .IsFinished "B", .Post "A", .Post "B"] :
          List (Call String)).countP Call.isSolve + 2 * 2) :=
  ⟨rfl, (C17_two_more_posts_than_solves countdownEnv { simulations_ := ["A", "B"] } 1 2 _
    rfl).2.2⟩

/-! ### C18 -/

/-- C18: when every instance of the collection keeps the `IsFinished` of the base class, `Run`
returns after a single pass of the solve loop (it has returned with one pass allowed and has not
with none); its calls are the setup phases, one finished query per instance, and the final
`Post` pass; no `Solve` is made, and every instance receives `Post` twice for each of its
occurrences in the collection. -/
theorem C18_base_class_run_single_pass [DecidableEq ι] (env : Env ι σ)
    (fw : NumSimFramework ι) (w : σ)
    (hbase : ∀ a ∈ fw.simulations_,
      (env.sim a).IsFinished = ({} : NumSimSimulation σ).IsFinished) :
    (∃ m1, NumSimFramework.Run env 1 ⟨fw, w, []⟩ = .returned m1 ∧
      m1.trace = setupCalls fw.simulations_ ++ fw.simulations_.map Call.IsFinished ++
        fw.simulations_.map Call.Post ∧
      (∀ c ∈ m1.trace, c.isSolve = false) ∧
      (∀ a, m1.trace.count (Call.Post a) = 2 * fw.simulations_.count a)) ∧
    (NumSimFramework.Run env 0 ⟨fw, w, []⟩).isReturned = false := by
  have hfin : passAllFinished env (Run.setup env ⟨fw, w, []⟩).self.simulations_
      (Run.setup env ⟨fw, w, []⟩).world = true := by
    rw [passAllFinished_iff, setup_self]
    intro a ha
    rw [hbase a ha]
  have hloop := solveLoop_exit env 0 (Run.setup env ⟨fw, w, []⟩) hfin
  have htrace : (Run.finalPost env ⟨(Run.setup env ⟨fw, w, []⟩).self,
      (Run.setup env ⟨fw, w, []⟩).world,
      (Run.setup env ⟨fw, w, []⟩).trace ++
        (Run.setup env ⟨fw, w, []⟩).self.simulations_.map Call.IsFinished⟩).trace =
      setupCalls fw.simulations_ ++ fw.simulations_.map Call.IsFinished ++
        fw.simulations_.map Call.Post := by
    rw [finalPost_trace]
    simp only [setup_self, setup_trace, List.nil_append]
  have hnosolve : ∀ c ∈ setupCalls fw.simulations_ ++ fw.simulations_.map Call.IsFinished ++
      fw.simulations_.map Call.Post, c.isSolve = false := by
    intro c hc
    rcases List.mem_append.1 hc with hc | hc
    · rcases List.mem_append.1 hc with hc | hc
      · exact setupCalls_no_solve _ c hc
      · obtain ⟨a, -, rfl⟩ := List.mem_map.1 hc
        rfl
    · exact map_Post_no_solve _ c hc
  have hrun : NumSimFramework.Run env 1 ⟨fw, w, []⟩ =
      .returned (Run.finalPost env ⟨(Run.setup env ⟨fw, w, []⟩).self,
        (Run.setup env ⟨fw, w, []⟩).world,
        (Run.setup env ⟨fw, w, []⟩).trace ++
          (Run.setup env ⟨fw, w, []⟩).self.simulations_.map Call.IsFinished⟩) := by
    simp only [NumSimFramework.Run, hloop]
  refine ⟨⟨_, hrun, htrace, ?_, ?_⟩, rfl⟩
  · rw [htrace]
    exact hnosolve
  · intro a
    obtain ⟨h1, -⟩ := Run_post_solve_counts env fw w 1 _ hrun
    rw [h1 a, count_Solve_of_no_solve _ (by rw [htrace]; exact hnosolve) a]
    omega

/-- Witness of C18: two instances "A" and "B" of the base class. -/
theorem C18_base_class_run_single_pass_witness :
    (∀ a ∈ (["A", "B"] : List String),
      (baseEnv.sim a).IsFinished = ({} : NumSimSimulation Unit).IsFinished) ∧
    (NumSimFramework.Run baseEnv 0 ⟨{ simulations_ := ["A", "B"] }, (), []⟩).isReturned =
      false ∧
    ∃ m1, NumSimFramework.Run baseEnv 1 ⟨{ simulations_ := ["A", "B"] }, (), []⟩ =
        .returned m1 ∧
      m1.trace = setupCalls ["A", "B"] ++ [Call.IsFinished "A", Call.IsFinished "B"] ++
        [Call.Post "A", Call.Post "B"] ∧
      (∀ c ∈ m1.trace, c.isSolve = false) ∧
      (∀ a, m1.trace.count (Call.Post a) = 2 * (["A", "B"] : List String).count a) :=
  ⟨fun _ _ => rfl, rfl,
    (C18_base_class_run_single_pass baseEnv { simulations_ := ["A", "B"] } ()
      (fun _ _ => rfl)).1⟩

/-! ### C19 -/

/-- C19: on a freshly created framework (empty collection, no Process Group), also after
`Initialize`, `Run` returns after one pass of the solve loop (it has returned with one pass
allowed and is still in the loop with none) and has made no call; `Finalize` makes no call at
all, neither `Finalize` on an instance nor `NumSimComm::Finalize`, and changes nothing. -/
theorem C19_fresh_framework_makes_no_call (env : Env ι σ) (w : σ)
    (numSimSolverJson : JsonObject) :
    ((NumSimFramework.Create w : Machine ι σ).self.simulations_ = [] ∧
      (NumSimFramework.Create w : Machine ι σ).self.comm_ = none ∧
      (NumSimFramework.Create w : Machine ι σ).trace = []) ∧
    NumSimFramework.Run env 1 (NumSimFramework.Create w) =
      .returned (NumSimFramework.Create w) ∧
    NumSimFramework.Run env 0 (NumSimFramework.Create w) =
      .running (NumSimFramework.Create w) ∧
    NumSimFramework.Finalize env (NumSimFramework.Create w) = NumSimFramework.Create w ∧
    NumSimFramework.Run env 1 (NumSimFramework.Initialize numSimSolverJson
      (NumSimFramework.Create w)) = .returned (NumSimFramework.Create w) ∧
    NumSimFramework.Finalize env (NumSimFramework.Initialize numSimSolverJson
      (NumSimFramework.Create w)) = NumSimFramework.Create w :=
  ⟨⟨rfl, rfl, rfl⟩, rfl, rfl, rfl, rfl, rfl⟩

end NumSimSolver
